import Mathlib

/-!
Verification development for the similarity-and-gain statistics engine of the
Politicians repository (src/src/network_analyzer/similarity_algos.py and
src/src/network_analyzer/similarity_statistics.py).

Modelling conventions:
* Graphs are undirected weighted graphs given by a node list, an edge list
  (endpoint, endpoint, weight) and two node-attribute stores: the
  "1_over_weight_log" numeric attribute written by `add_weight_log`, and the
  categorical feature attributes read by `get_subgraphs`.
* Edge weights and similarity scores live in `ℚ`.  The transcendental map
  `d ↦ 1 / log d` used by the Adamic-Adar variants is kept as an explicit
  parameter `il : ℚ → ℚ` of the definitions (Lean's real logarithm is
  noncomputable); every theorem below holds for an arbitrary `il`, so in
  particular for the intended `fun d => 1 / Real.log d`.
* Python sets of nodes (`set(G[u])` and friends) are modelled as
  duplicate-free lists; set intersection, union and size become list
  operations on those.  Iteration order of Python dicts / sets /
  `nx.non_edges` is modelled by list order; all stated properties are
  insensitive to that order.
* Python exceptions are modelled with `Except` / `Option`: a `KeyError` when
  `predict` reads the missing "1_over_weight_log" attribute becomes `none`,
  and the `ValueError` for an unknown algorithm name becomes
  `SimError.unsupportedAlgorithm`.
-/

/-- A categorical node-attribute value as produced by the pandas-based
network builder: either a real categorical value (modelled as a string) or
the NaN missing-data sentinel. -/
inductive FVal where
  | nan : FVal
  | str : String → FVal
deriving DecidableEq, Repr

/-- Python `==` on attribute values: NaN compares unequal to everything,
including itself; ordinary values compare structurally. -/
def pyEq : FVal → FVal → Bool
  | .str a, .str b => a == b
  | _, _ => false

/-- Python `data.get(feature) == feature_value` where the left side may be
absent (`None`): an absent attribute is equal to no (non-None) stored value. -/
def optPyEq : Option FVal → FVal → Bool
  | some x, v => pyEq x v
  | none, _ => false

/-- Undirected weighted graph with node attributes, mirroring the
`networkx.Graph` objects that flow through the analyzer:
`nodes` in insertion order, `edges` as (u, v, weight) triples, `wlogAttr`
the per-node "1_over_weight_log" attribute store, and `fattrs` the
categorical feature attributes (feature name → node → value). -/
structure WGraph where
  nodes : List ℕ
  edges : List (ℕ × ℕ × ℚ)
  wlogAttr : ℕ → Option ℚ
  fattrs : String → ℕ → Option FVal

/-- Well-formedness of the embedding of a `networkx` simple graph: distinct
nodes, edges between distinct existing nodes, and at most one edge per
unordered node pair. -/
def WF (g : WGraph) : Prop :=
  g.nodes.Nodup ∧
  (∀ e ∈ g.edges, e.1 ∈ g.nodes ∧ e.2.1 ∈ g.nodes ∧ e.1 ≠ e.2.1) ∧
  g.edges.Pairwise (fun e e' =>
    ¬ ((e.1 = e'.1 ∧ e.2.1 = e'.2.1) ∨ (e.1 = e'.2.1 ∧ e.2.1 = e'.1)))

instance : DecidablePred WF := by
  intro g
  unfold WF
  infer_instance

instance {ε α : Type} [DecidableEq ε] [DecidableEq α] : DecidableEq (Except ε α) :=
  fun a b =>
    match a, b with
    | .error e, .error e' =>
      if h : e = e' then .isTrue (by rw [h])
      else .isFalse (by intro hc; cases hc; exact h rfl)
    | .error _, .ok _ => .isFalse (by intro hc; cases hc)
    | .ok _, .error _ => .isFalse (by intro hc; cases hc)
    | .ok x, .ok y =>
      if h : x = y then .isTrue (by rw [h])
      else .isFalse (by intro hc; cases hc; exact h rfl)

/-- Adjacency test (`G.has_edge(u, v)` on an undirected graph). -/
def adjb (g : WGraph) (u v : ℕ) : Bool :=
  g.edges.any (fun e => (e.1 == u && e.2.1 == v) || (e.1 == v && e.2.1 == u))

/-- The neighborhood `set(G[u])` of a node, as a duplicate-free list. -/
def nbrsList (g : WGraph) (u : ℕ) : List ℕ :=
  (g.edges.filterMap (fun e =>
    if e.1 = u then some e.2.1 else if e.2.1 = u then some e.1 else none)).dedup

/-- Set intersection on (duplicate-free) lists. -/
def interL (xs ys : List ℕ) : List ℕ :=
  xs.filter (fun w => ys.contains w)

/-- Set union on (duplicate-free) lists. -/
def unionL (xs ys : List ℕ) : List ℕ :=
  xs ++ ys.filter (fun w => !xs.contains w)

/-- `common_neighbors` (similarity_algos.py lines 42-43):
`set(G[u]) & set(G[v])`. -/
def common_neighbors (g : WGraph) (u v : ℕ) : List ℕ :=
  interL (nbrsList g u) (nbrsList g v)

/-- Edge-weight lookup `G[u][v][weight]`, with the `.get(w, {weight: 0})`
default 0 used by the weighted Jaccard denominator. -/
def wt (g : WGraph) (u v : ℕ) : ℚ :=
  match g.edges.find? (fun e => (e.1 == u && e.2.1 == v) || (e.1 == v && e.2.1 == u)) with
  | some e => e.2.2
  | none => 0

/-- Weighted degree `g.degree(node, weight="weight")`: the sum of the weights
of the incident edges. -/
def wdeg (g : WGraph) (u : ℕ) : ℚ :=
  (g.edges.map (fun e =>
    (if e.1 = u then e.2.2 else 0) + (if e.2.1 = u then e.2.2 else 0))).sum

/-- `g.degree(node, weight=weight)` from `add_weight_log`: the weighted degree
when a weight key is given, the number of neighbors when `weight=None`. -/
def dOf (g : WGraph) (weighted : Bool) (u : ℕ) : ℚ :=
  if weighted then wdeg g u else ((nbrsList g u).length : ℚ)

/-- All unordered pairs of (distinct positions of) nodes of a list, each once. -/
def pairsOf : List ℕ → List (ℕ × ℕ)
  | [] => []
  | u :: rest => rest.map (fun v => (u, v)) ++ pairsOf rest

/-- `nx.non_edges(G)`: every unordered pair of distinct nodes that is not an
edge, each exactly once.  This is the default `ebunch` of
`_apply_prediction` (similarity_algos.py lines 38-39). -/
def non_edges (g : WGraph) : List (ℕ × ℕ) :=
  (pairsOf g.nodes).filter (fun p => !adjb g p.1 p.2)

/-- `add_weight_log` (similarity_algos.py lines 7-21): for every node whose
degree (weighted or neighbor count, per the `weight` argument) is at least 2,
store `il` of that degree in the "1_over_weight_log" node attribute; nodes
below the threshold are skipped (`continue`), their attribute left untouched.
The update is an in-place mutation of the graph's attribute store, returned
here as a new `WGraph` value.  `awl_step` is the loop body. -/
def awl_step (il : ℚ → ℚ) (weighted : Bool) (g : WGraph)
    (a : ℕ → Option ℚ) (node : ℕ) : ℕ → Option ℚ :=
  if dOf g weighted node < 2 then a
  else fun m => if m = node then some (il (dOf g weighted node)) else a m

def add_weight_log (il : ℚ → ℚ) (weighted : Bool) (g : WGraph) : WGraph :=
  { g with wlogAttr := g.nodes.foldl (awl_step il weighted g) g.wlogAttr }

/-- Sum of a list of optional values; `none` (a missing attribute, Python's
`KeyError`) poisons the whole sum. -/
def optSum : List (Option ℚ) → Option ℚ
  | [] => some 0
  | o :: rest =>
    match o, optSum rest with
    | some x, some s => some (x + s)
    | _, _ => none

/-- `predict` inside `weighted_adamic_adar_index` (similarity_algos.py lines
82-85): sum `G.nodes[w][weight_log]` over the common neighbors `w` of `u` and
`v`; reading the attribute of a node that `add_weight_log` skipped raises
`KeyError`, modelled as `none`. -/
def predict_aa (g : WGraph) (u v : ℕ) : Option ℚ :=
  optSum ((common_neighbors g u v).map g.wlogAttr)

/-- Body shared by `weighted_adamic_adar_index` (weight="weight") and
`adamic_adar_index` (weight=None): mutate the graph via `add_weight_log`,
then apply `predict` to every pair of `nx.non_edges` of the (mutated) graph.
Returns the graph as left after the call together with the scored pairs. -/
def adamic_adar_core (il : ℚ → ℚ) (weighted : Bool) (g : WGraph) :
    WGraph × List (ℕ × ℕ × Option ℚ) :=
  let g2 := add_weight_log il weighted g
  (g2, (non_edges g2).map (fun p => (p.1, p.2, predict_aa g2 p.1 p.2)))

/-- `weighted_adamic_adar_index` (similarity_algos.py lines 47-88). -/
def weighted_adamic_adar_index (il : ℚ → ℚ) (g : WGraph) :
    WGraph × List (ℕ × ℕ × Option ℚ) :=
  adamic_adar_core il true g

/-- `adamic_adar_index` (similarity_algos.py lines 161-162): the weighted
variant called with `weight=None`. -/
def adamic_adar_index (il : ℚ → ℚ) (g : WGraph) :
    WGraph × List (ℕ × ℕ × Option ℚ) :=
  adamic_adar_core il false g

/-- `predict` inside `jaccard_coefficient` (similarity_algos.py lines
165-179): 0 when the neighborhood union or intersection is empty, otherwise
intersection size over union size. -/
def jaccard_score (g : WGraph) (u v : ℕ) : ℚ :=
  let cn := interL (nbrsList g u) (nbrsList g v)
  let an := unionL (nbrsList g u) (nbrsList g v)
  if an.isEmpty then 0
  else if cn.isEmpty then 0
  else (cn.length : ℚ) / (an.length : ℚ)

/-- `predict` inside `weighted_jaccard_coefficient` (similarity_algos.py
lines 139-156): sum of min weights over common neighbors divided by sum of
max weights (missing side defaulting to 0) over the neighborhood union. -/
def weighted_jaccard_score (g : WGraph) (u v : ℕ) : ℚ :=
  let cn := interL (nbrsList g u) (nbrsList g v)
  let an := unionL (nbrsList g u) (nbrsList g v)
  if an.isEmpty then 0
  else if cn.isEmpty then 0
  else ((cn.map (fun w => min (wt g v w) (wt g u w))).sum) /
       ((an.map (fun w => max (wt g v w) (wt g u w))).sum)

/-- `jaccard_coefficient` (similarity_algos.py lines 164-181): pure reader of
the graph, evaluated over `nx.non_edges`. -/
def jaccard_coefficient (g : WGraph) : WGraph × List (ℕ × ℕ × ℚ) :=
  (g, (non_edges g).map (fun p => (p.1, p.2, jaccard_score g p.1 p.2)))

/-- `weighted_jaccard_coefficient` (similarity_algos.py lines 93-158). -/
def weighted_jaccard_coefficient (g : WGraph) : WGraph × List (ℕ × ℕ × ℚ) :=
  (g, (non_edges g).map (fun p => (p.1, p.2, weighted_jaccard_score g p.1 p.2)))

/-- `SimilarityStatistics.is_clique` (similarity_statistics.py lines 237-243):
`g.number_of_edges() == n * (n - 1) / 2` with exact (rational) arithmetic. -/
def is_clique (g : WGraph) : Bool :=
  decide ((g.edges.length : ℚ) = (g.nodes.length : ℚ) * ((g.nodes.length : ℚ) - 1) / 2)

/-- Errors avg_similarity_4_nodes_by_graph can raise: the `ValueError` for an
unrecognized algorithm name (similarity_statistics.py lines 168-171) and the
`KeyError` from `predict` reading a missing "1_over_weight_log" attribute. -/
inductive SimError where
  | unsupportedAlgorithm : SimError
  | keyError : SimError
deriving DecidableEq, Repr

/-- The accumulators of the non-clique branch (similarity_statistics.py lines
173-182): `sum_similarity` and `node_neighbors` are `defaultdict(float)`;
`keys` records which nodes have been touched, in insertion order. -/
structure SimAcc where
  keys : List ℕ
  ssum : ℕ → ℚ
  cnt : ℕ → ℚ

def bump (f : ℕ → ℚ) (n : ℕ) (x : ℚ) : ℕ → ℚ :=
  fun m => if m = n then f n + x else f m

def addKey (ks : List ℕ) (n : ℕ) : List ℕ :=
  if n ∈ ks then ks else ks ++ [n]

/-- One iteration of the accumulation loop (similarity_statistics.py lines
177-182): pairs with score greater than 0 add the score and a +1 count onto
both endpoints; other pairs are ignored. -/
def accStep (a : SimAcc) (u v : ℕ) (s : ℚ) : SimAcc :=
  if 0 < s then
    { keys := addKey (addKey a.keys u) v
      ssum := bump (bump a.ssum u s) v s
      cnt := bump (bump a.cnt u 1) v 1 }
  else a

def accFold (ma : Option SimAcc) (t : ℕ × ℕ × Option ℚ) : Option SimAcc :=
  match ma, t.2.2 with
  | some a, some s => some (accStep a t.1 t.2.1 s)
  | _, _ => none

/-- Run the accumulation loop over the scored pairs; a `KeyError` raised while
the lazy score generator is consumed aborts the whole loop (`none`). -/
def accumPairs (scores : List (ℕ × ℕ × Option ℚ)) : Option SimAcc :=
  scores.foldl accFold (some ⟨[], fun _ => 0, fun _ => 0⟩)

/-- The fixed algorithm-name table of avg_similarity_4_nodes_by_graph
(similarity_statistics.py lines 159-164). -/
def supported_algorithms : List String :=
  ["jaccard", "adamic_adar", "weighted_jaccard", "weighted_adamic_adar"]

/-- Dispatch on the algorithm name (`similarity_algorithms.get`, lines
159-167): `some` scored pairs for the four recognized names, `none`
otherwise.  Jaccard scores are total, Adamic-Adar scores optional. -/
def run_algorithm (il : ℚ → ℚ) (alg : String) (g : WGraph) :
    Option (List (ℕ × ℕ × Option ℚ)) :=
  if alg = "jaccard" then
    some ((jaccard_coefficient g).2.map (fun t => (t.1, t.2.1, some t.2.2)))
  else if alg = "adamic_adar" then
    some ((adamic_adar_index il g).2)
  else if alg = "weighted_jaccard" then
    some ((weighted_jaccard_coefficient g).2.map (fun t => (t.1, t.2.1, some t.2.2)))
  else if alg = "weighted_adamic_adar" then
    some ((weighted_adamic_adar_index il g).2)
  else none

/-- `SimilarityStatistics.avg_similarity_4_nodes_by_graph`
(similarity_statistics.py lines 138-187): clique short-circuit to 1.0 for
every node, then dispatch, then accumulate positive scores over the evaluated
pairs, then divide sum by count for every touched node. -/
def avg_similarity_4_nodes_by_graph (il : ℚ → ℚ) (alg : String) (g : WGraph) :
    Except SimError (List (ℕ × ℚ)) :=
  if is_clique g then .ok (g.nodes.map (fun n => (n, 1)))
  else
    match run_algorithm il alg g with
    | none => .error .unsupportedAlgorithm
    | some scores =>
      match accumPairs scores with
      | none => .error .keyError
      | some a => .ok (a.keys.map (fun n => (n, a.ssum n / a.cnt n)))

/-- Induced subgraph `self.g.subgraph(node_list)`: the nodes of `g` that lie
in the list, with the edges between them; attribute stores are shared with
the parent graph (a `networkx` subgraph view). -/
def subgraphOn (g : WGraph) (ns : List ℕ) : WGraph :=
  { nodes := g.nodes.filter (fun n => ns.contains n)
    edges := g.edges.filter (fun e => ns.contains e.1 && ns.contains e.2.1)
    wlogAttr := g.wlogAttr
    fattrs := g.fattrs }

/-- `SimilarityStatistics.get_subgraphs` (similarity_statistics.py lines
96-136): collect the nodes carrying the feature, return `{}` if there are
none; otherwise filter out NaN values (`value == value`), deduplicate, and
build one induced subgraph per remaining distinct value, over the nodes whose
`data.get(feature)` equals that value. -/
def node_attributes (g : WGraph) (f : String) : List (ℕ × FVal) :=
  g.nodes.filterMap (fun n => (g.fattrs f n).map (fun v => (n, v)))

def unique_feature_values (g : WGraph) (f : String) : List FVal :=
  (((node_attributes g f).map Prod.snd).filter (fun v => pyEq v v)).dedup

def feature_nodes (g : WGraph) (f : String) (v : FVal) : List ℕ :=
  g.nodes.filter (fun n => optPyEq (g.fattrs f n) v)

def get_subgraphs (g : WGraph) (f : String) : List (FVal × WGraph) :=
  if (node_attributes g f).isEmpty then []
  else (unique_feature_values g f).map (fun v => (v, subgraphOn g (feature_nodes g f v)))

/-- Loop body of `get_similarity_4_feature` (similarity_statistics.py lines
205-228): per feature-value subgraph, compute the node averages, skip empty
results, and collect (node, label, value) rows; an algorithm error aborts the
computation as the uncaught Python exception would. -/
def subgraph_rows_loop (il : ℚ → ℚ) (alg : String) :
    List (FVal × WGraph) → Except SimError (List (ℕ × FVal × ℚ))
  | [] => .ok []
  | p :: rest =>
    match avg_similarity_4_nodes_by_graph il alg p.2 with
    | .error e => .error e
    | .ok rows =>
      match subgraph_rows_loop il alg rest with
      | .error e => .error e
      | .ok acc =>
        .ok ((if rows.isEmpty then [] else rows.map (fun r => (r.1, p.1, r.2))) ++ acc)

/-- `SimilarityStatistics.get_similarity_4_feature` (similarity_statistics.py
lines 189-235). -/
def get_similarity_4_feature (il : ℚ → ℚ) (alg : String) (g : WGraph) (f : String) :
    Except SimError (List (ℕ × FVal × ℚ)) :=
  subgraph_rows_loop il alg (get_subgraphs g f)

/-- Gain of a node against the baseline column (similarity_statistics.py
lines 82-84): pandas aligns the feature column with the Base column on the
node index, so a node absent from the baseline gets a missing gain (`none`),
and a node present in both gets `abs(value - base) / base`. -/
def gain_of (baseRows : List (ℕ × ℚ)) (n : ℕ) (v : ℚ) : Option ℚ :=
  (baseRows.lookup n).map (fun bv => |v - bv| / bv)

instance : DecidableEq (ℕ × FVal × ℚ × Option ℚ) :=
  inferInstance

instance : DecidableEq (List (ℕ × FVal × ℚ × Option ℚ)) :=
  inferInstance

instance : DecidableEq (String × List (ℕ × FVal × ℚ × Option ℚ)) :=
  instDecidableEqProd

/-- The wide similarity table built by `get_all_similarities`: the Base
column (node, value, gain), one column of (node, label, value, gain) rows per
retained feature, the retained target-feature list, and the skipped ones. -/
structure SimTable where
  base : List (ℕ × ℚ × ℚ)
  cols : List (String × List (ℕ × FVal × ℚ × Option ℚ))
  retained : List String
  skipped : List String
deriving DecidableEq, Repr

/-- The feature loop of `get_all_similarities` (similarity_statistics.py
lines 69-87): features whose similarity frame is empty are recorded as
skipped and produce no column; the others get a gain-annotated column. -/
def features_loop (il : ℚ → ℚ) (alg : String) (g : WGraph) (baseRows : List (ℕ × ℚ)) :
    List String →
      Except SimError (List (String × List (ℕ × FVal × ℚ × Option ℚ)) × List String)
  | [] => .ok ([], [])
  | f :: rest =>
    match get_similarity_4_feature il alg g f with
    | .error e => .error e
    | .ok rows =>
      match features_loop il alg g baseRows rest with
      | .error e => .error e
      | .ok st =>
        if rows.isEmpty then .ok (st.1, f :: st.2)
        else
          .ok ((f, rows.map (fun r => (r.1, r.2.1, r.2.2, gain_of baseRows r.1 r.2.2))) :: st.1,
               st.2)

/-- `SimilarityStatistics.get_all_similarities` (similarity_statistics.py
lines 38-94): baseline from the whole graph with gain pinned to 0.0, then the
feature loop, then `target_features` filtered down to the non-skipped
features. -/
def get_all_similarities (il : ℚ → ℚ) (alg : String) (g : WGraph) (targets : List String) :
    Except SimError SimTable :=
  match avg_similarity_4_nodes_by_graph il alg g with
  | .error e => .error e
  | .ok baseRows =>
    match features_loop il alg g baseRows targets with
    | .error e => .error e
    | .ok st =>
      .ok { base := baseRows.map (fun r => (r.1, r.2, 0))
            cols := st.1
            retained := targets.filter (fun f => !st.2.contains f)
            skipped := st.2 }

/-- Spec-side notion for C1: all node pairs of the subgraph. -/
def allNodePairs (g : WGraph) : List (ℕ × ℕ) := pairsOf g.nodes

/-- The pairs over which the dispatched similarity algorithm is actually
evaluated inside avg_similarity_4_nodes_by_graph. -/
def evaluated_pairs (il : ℚ → ℚ) (alg : String) (g : WGraph) : List (ℕ × ℕ) :=
  ((run_algorithm il alg g).getD []).map (fun t => (t.1, t.2.1))

/-- Spec-side contribution of one scored pair to a node's similarity sum:
the score if the pair touches the node and scored above 0, else nothing. -/
def contrib (n : ℕ) (t : ℕ × ℕ × Option ℚ) : ℚ :=
  match t.2.2 with
  | some s => if (t.1 = n ∨ t.2.1 = n) ∧ 0 < s then s else 0
  | none => 0

/-- Spec-side contribution of one scored pair to a node's pair count. -/
def contribCnt (n : ℕ) (t : ℕ × ℕ × Option ℚ) : ℚ :=
  match t.2.2 with
  | some s => if (t.1 = n ∨ t.2.1 = n) ∧ 0 < s then 1 else 0
  | none => 0

/-- Total accumulated score of a node over a scored pair list. -/
def contrib_sum (L : List (ℕ × ℕ × Option ℚ)) (n : ℕ) : ℚ := (L.map (contrib n)).sum

/-- Total count of contributing pairs of a node over a scored pair list. -/
def contrib_cnt (L : List (ℕ × ℕ × Option ℚ)) (n : ℕ) : ℚ := (L.map (contribCnt n)).sum

/-- The path graph 0 - 1 - 2 with unit weights and no node attributes. -/
def path3 : WGraph :=
  { nodes := [0, 1, 2]
    edges := [(0, 1, 1), (1, 2, 1)]
    wlogAttr := fun _ => none
    fattrs := fun _ _ => none }

/-- Three nodes 0, 1, 2 with fractional co-occurrence weights: edges
(0,2) and (1,2) of weight 1/2, so every node has weighted degree below 2. -/
def bugGraph : WGraph :=
  { nodes := [0, 1, 2]
    edges := [(0, 2, 1/2), (1, 2, 1/2)]
    wlogAttr := fun _ => none
    fattrs := fun _ _ => none }

/-- The star 1 - 0 - 2 with unit weights: the center has degree 2. -/
def star3 : WGraph :=
  { nodes := [0, 1, 2]
    edges := [(0, 1, 1), (0, 2, 1)]
    wlogAttr := fun _ => none
    fattrs := fun _ _ => none }

/-- A single isolated node. -/
def single7 : WGraph :=
  { nodes := [7]
    edges := []
    wlogAttr := fun _ => none
    fattrs := fun _ _ => none }

/-- Feature values of the "grp" attribute of `featGraph`. -/
def grpVal : ℕ → Option FVal :=
  fun n =>
    if n = 0 ∨ n = 1 then some (.str "X")
    else if n = 2 ∨ n = 3 then some (.str "Y")
    else none

/-- The path 0 - 1 - 2 - 3 with unit weights and a categorical feature
"grp" splitting it into the node pairs 0, 1 and 2, 3. -/
def featGraph : WGraph :=
  { nodes := [0, 1, 2, 3]
    edges := [(0, 1, 1), (1, 2, 1), (2, 3, 1)]
    wlogAttr := fun _ => none
    fattrs := fun f n => if f = "grp" then grpVal n else none }

theorem pairsOf_mem {l : List ℕ} {p : ℕ × ℕ} (hp : p ∈ pairsOf l) :
    p.1 ∈ l ∧ p.2 ∈ l := by
  induction l with
  | nil => simp [pairsOf] at hp
  | cons x xs ih =>
    simp only [pairsOf, List.mem_append, List.mem_map] at hp
    rcases hp with ⟨v, hv, rfl⟩ | hp
    · exact ⟨List.mem_cons_self _ _, List.mem_cons_of_mem _ hv⟩
    · rcases ih hp with ⟨h1, h2⟩
      exact ⟨List.mem_cons_of_mem _ h1, List.mem_cons_of_mem _ h2⟩

theorem pairsOf_ne {l : List ℕ} (hl : l.Nodup) {p : ℕ × ℕ} (hp : p ∈ pairsOf l) :
    p.1 ≠ p.2 := by
  induction l with
  | nil => simp [pairsOf] at hp
  | cons x xs ih =>
    rcases List.nodup_cons.1 hl with ⟨hx, hxs⟩
    simp only [pairsOf, List.mem_append, List.mem_map] at hp
    rcases hp with ⟨v, hv, rfl⟩ | hp
    · intro h
      simp only [] at h
      exact hx (by rw [h]; exact hv)
    · exact ih hxs hp

theorem lookup_map_self {β : Type} (f : ℕ → β) (ks : List ℕ) (n : ℕ) :
    (ks.map (fun k => (k, f k))).lookup n = if n ∈ ks then some (f n) else none := by
  induction ks with
  | nil => simp [List.lookup]
  | cons k t ih =>
    by_cases h : n = k
    · subst h
      simp [List.lookup]
    · have hbeq : (n == k) = false := beq_eq_false_iff_ne.2 h
      simp [List.lookup, hbeq, ih, List.mem_cons, h]

theorem lookup_of_mem_nodup {β : Type} :
    ∀ (l : List (ℕ × β)), (l.map Prod.fst).Nodup →
      ∀ {n : ℕ} {b : β}, (n, b) ∈ l → l.lookup n = some b := by
  intro l
  induction l with
  | nil => intro _ n b h; simp at h
  | cons e t ih =>
    intro hnd n b hmem
    have hnd' : (e.1 :: t.map Prod.fst).Nodup := by simpa using hnd
    rcases List.nodup_cons.1 hnd' with ⟨he, ht⟩
    rcases List.mem_cons.1 hmem with heq | hmem'
    · cases heq
      simp [List.lookup]
    · have hne : n ≠ e.1 := by
        intro h
        exact he (h ▸ (List.mem_map.2 ⟨(n, b), hmem', rfl⟩))
      have hbeq : (n == e.1) = false := beq_eq_false_iff_ne.2 hne
      cases e with
      | mk k v =>
        simp only [List.lookup, hbeq]
        exact ih ht hmem'

theorem sum_map_constq (c : ℚ) (l : List ℕ) :
    (l.map (fun _ => c)).sum = (l.length : ℚ) * c := by
  induction l with
  | nil => simp
  | cons x xs ih => simp [ih]; ring

theorem bump_eval (f : ℕ → ℚ) (m : ℕ) (x : ℚ) (n : ℕ) :
    bump f m x n = f n + (if n = m then x else 0) := by
  unfold bump
  by_cases h : n = m
  · subst h; simp
  · simp [h]

theorem addKey_mem (ks : List ℕ) (m n : ℕ) :
    n ∈ addKey ks m ↔ n ∈ ks ∨ n = m := by
  unfold addKey
  by_cases h : m ∈ ks
  · simp only [if_pos h]
    constructor
    · exact Or.inl
    · rintro (hn | rfl)
      · exact hn
      · exact h
  · simp [if_neg h, List.mem_append]

theorem addKey_nodup (ks : List ℕ) (m : ℕ) (h : ks.Nodup) : (addKey ks m).Nodup := by
  unfold addKey
  by_cases hm : m ∈ ks
  · simpa [hm] using h
  · simp only [if_neg hm]
    refine List.Nodup.append h (List.nodup_singleton m) ?_
    intro x hx hxm
    rw [List.mem_singleton] at hxm
    subst hxm
    exact hm hx

theorem accStep_ssum_eval (a : SimAcc) (u v : ℕ) (s : ℚ) (n : ℕ) :
    (accStep a u v s).ssum n =
      a.ssum n + (if 0 < s then (if n = u then s else 0) + (if n = v then s else 0) else 0) := by
  unfold accStep
  by_cases hs : 0 < s
  · simp only [if_pos hs, bump_eval]
    ring
  · simp [if_neg hs]

theorem accStep_cnt_eval (a : SimAcc) (u v : ℕ) (s : ℚ) (n : ℕ) :
    (accStep a u v s).cnt n =
      a.cnt n + (if 0 < s then (if n = u then (1:ℚ) else 0) + (if n = v then 1 else 0) else 0) := by
  unfold accStep
  by_cases hs : 0 < s
  · simp only [if_pos hs, bump_eval]
    ring
  · simp [if_neg hs]

theorem accStep_keys_mem (a : SimAcc) (u v : ℕ) (s : ℚ) (n : ℕ) :
    n ∈ (accStep a u v s).keys ↔ n ∈ a.keys ∨ ((u = n ∨ v = n) ∧ 0 < s) := by
  unfold accStep
  by_cases hs : 0 < s
  · simp only [if_pos hs, addKey_mem]
    constructor
    · rintro ((h | rfl) | rfl)
      · exact Or.inl h
      · exact Or.inr ⟨Or.inl rfl, hs⟩
      · exact Or.inr ⟨Or.inr rfl, hs⟩
    · rintro (h | ⟨rfl | rfl, _⟩)
      · exact Or.inl (Or.inl h)
      · exact Or.inl (Or.inr rfl)
      · exact Or.inr rfl
  · simp [if_neg hs, hs]

theorem accStep_keys_nodup (a : SimAcc) (u v : ℕ) (s : ℚ) (h : a.keys.Nodup) :
    (accStep a u v s).keys.Nodup := by
  unfold accStep
  by_cases hs : 0 < s
  · simp only [if_pos hs]
    exact addKey_nodup _ _ (addKey_nodup _ _ h)
  · simpa [if_neg hs] using h

theorem foldl_accFold_none (L : List (ℕ × ℕ × Option ℚ)) :
    L.foldl accFold none = none := by
  induction L with
  | nil => rfl
  | cons t ts ih =>
    have hstep : accFold none t = none := rfl
    simp only [List.foldl_cons, hstep, ih]

theorem contribCnt_nonneg (n : ℕ) (t : ℕ × ℕ × Option ℚ) : 0 ≤ contribCnt n t := by
  unfold contribCnt
  rcases t.2.2 with _ | s
  · simp
  · simp only []
    split
    · norm_num
    · norm_num

theorem contrib_cnt_nonneg (L : List (ℕ × ℕ × Option ℚ)) (n : ℕ) : 0 ≤ contrib_cnt L n := by
  unfold contrib_cnt
  induction L with
  | nil => simp
  | cons t ts ih =>
    simp only [List.map_cons, List.sum_cons]
    exact add_nonneg (contribCnt_nonneg n t) ih

theorem pos_add_iff_q {x y : ℚ} (hx : 0 ≤ x) (hy : 0 ≤ y) :
    0 < x + y ↔ 0 < x ∨ 0 < y := by
  constructor
  · intro h
    by_contra hc
    push_neg at hc
    have hx0 : x = 0 := le_antisymm hc.1 hx
    have hy0 : y = 0 := le_antisymm hc.2 hy
    rw [hx0, hy0] at h
    simp at h
  · rintro (h | h)
    · exact add_pos_of_pos_of_nonneg h hy
    · exact add_pos_of_nonneg_of_pos hx h

theorem contrib_sum_cons (t : ℕ × ℕ × Option ℚ) (L : List (ℕ × ℕ × Option ℚ)) (n : ℕ) :
    contrib_sum (t :: L) n = contrib n t + contrib_sum L n := by
  unfold contrib_sum
  simp

theorem contrib_cnt_cons (t : ℕ × ℕ × Option ℚ) (L : List (ℕ × ℕ × Option ℚ)) (n : ℕ) :
    contrib_cnt (t :: L) n = contribCnt n t + contrib_cnt L n := by
  unfold contrib_cnt
  simp

theorem contrib_eval (n u v : ℕ) (s : ℚ) (huv : u ≠ v) :
    contrib n (u, v, some s) =
      (if 0 < s then (if n = u then s else 0) + (if n = v then s else 0) else 0) := by
  show (if (u = n ∨ v = n) ∧ 0 < s then s else 0) = _
  by_cases h0 : 0 < s
  · rw [if_pos h0]
    by_cases hnu : n = u
    · subst hnu
      have hnv : n ≠ v := huv
      rw [if_pos (show (n = n ∨ v = n) ∧ 0 < s from ⟨Or.inl rfl, h0⟩), if_pos rfl, if_neg hnv]
      ring
    · by_cases hnv : n = v
      · subst hnv
        rw [if_pos (show (u = n ∨ n = n) ∧ 0 < s from ⟨Or.inr rfl, h0⟩), if_neg hnu, if_pos rfl]
        ring
      · have hcond : ¬ ((u = n ∨ v = n) ∧ 0 < s) := by
          rintro ⟨h | h, _⟩
          · exact hnu h.symm
          · exact hnv h.symm
        rw [if_neg hcond, if_neg hnu, if_neg hnv]
        ring
  · rw [if_neg h0, if_neg (show ¬ ((u = n ∨ v = n) ∧ 0 < s) from fun hc => h0 hc.2)]

theorem contribCnt_eval (n u v : ℕ) (s : ℚ) (huv : u ≠ v) :
    contribCnt n (u, v, some s) =
      (if 0 < s then (if n = u then (1:ℚ) else 0) + (if n = v then 1 else 0) else 0) := by
  show (if (u = n ∨ v = n) ∧ 0 < s then (1:ℚ) else 0) = _
  by_cases h0 : 0 < s
  · rw [if_pos h0]
    by_cases hnu : n = u
    · subst hnu
      have hnv : n ≠ v := huv
      rw [if_pos (show (n = n ∨ v = n) ∧ 0 < s from ⟨Or.inl rfl, h0⟩), if_pos rfl, if_neg hnv]
      ring
    · by_cases hnv : n = v
      · subst hnv
        rw [if_pos (show (u = n ∨ n = n) ∧ 0 < s from ⟨Or.inr rfl, h0⟩), if_neg hnu, if_pos rfl]
        ring
      · have hcond : ¬ ((u = n ∨ v = n) ∧ 0 < s) := by
          rintro ⟨h | h, _⟩
          · exact hnu h.symm
          · exact hnv h.symm
        rw [if_neg hcond, if_neg hnu, if_neg hnv]
        ring
  · rw [if_neg h0, if_neg (show ¬ ((u = n ∨ v = n) ∧ 0 < s) from fun hc => h0 hc.2)]

theorem contribCnt_pos_iff (n u v : ℕ) (s : ℚ) :
    0 < contribCnt n (u, v, some s) ↔ ((u = n ∨ v = n) ∧ 0 < s) := by
  show 0 < (if (u = n ∨ v = n) ∧ 0 < s then (1:ℚ) else 0) ↔ _
  by_cases h : (u = n ∨ v = n) ∧ 0 < s
  · rw [if_pos h]
    exact ⟨fun _ => h, fun _ => one_pos⟩
  · rw [if_neg h]
    exact ⟨fun hh => absurd hh (lt_irrefl 0), fun hh => absurd hh h⟩

theorem accum_go (L : List (ℕ × ℕ × Option ℚ)) :
    ∀ (a b : SimAcc),
      (∀ t ∈ L, t.1 ≠ t.2.1) →
      L.foldl accFold (some a) = some b →
      (∀ n, b.ssum n = a.ssum n + contrib_sum L n) ∧
      (∀ n, b.cnt n = a.cnt n + contrib_cnt L n) ∧
      (∀ n, n ∈ b.keys ↔ (n ∈ a.keys ∨ 0 < contrib_cnt L n)) ∧
      (a.keys.Nodup → b.keys.Nodup) := by
  induction L with
  | nil =>
    intro a b _ hfold
    simp only [List.foldl_nil, Option.some.injEq] at hfold
    subst hfold
    refine ⟨?_, ?_, ?_, ?_⟩
    · intro n
      simp [contrib_sum]
    · intro n
      simp [contrib_cnt]
    · intro n
      simp [contrib_cnt]
    · exact id
  | cons t ts ih =>
    intro a b hne hfold
    rcases t with ⟨u, v, os⟩
    have hu : u ≠ v := hne (u, v, os) (List.mem_cons_self _ _)
    cases os with
    | none =>
      exfalso
      rw [List.foldl_cons] at hfold
      have hstep : accFold (some a) (u, v, none) = none := rfl
      rw [hstep, foldl_accFold_none] at hfold
      cases hfold
    | some s =>
      rw [List.foldl_cons] at hfold
      have hstep : accFold (some a) (u, v, some s) = some (accStep a u v s) := rfl
      rw [hstep] at hfold
      have hne' : ∀ t' ∈ ts, t'.1 ≠ t'.2.1 :=
        fun t' ht' => hne t' (List.mem_cons_of_mem _ ht')
      rcases ih (accStep a u v s) b hne' hfold with ⟨hs, hc, hk, hnd⟩
      refine ⟨?_, ?_, ?_, ?_⟩
      · intro n
        rw [hs n, accStep_ssum_eval, contrib_sum_cons, contrib_eval n u v s hu]
        ring
      · intro n
        rw [hc n, accStep_cnt_eval, contrib_cnt_cons, contribCnt_eval n u v s hu]
        ring
      · intro n
        rw [hk n, accStep_keys_mem, contrib_cnt_cons,
          pos_add_iff_q (contribCnt_nonneg n (u, v, some s)) (contrib_cnt_nonneg ts n),
          contribCnt_pos_iff]
        tauto
      · intro h
        exact hnd (accStep_keys_nodup a u v s h)

theorem accum_pos (L : List (ℕ × ℕ × Option ℚ)) :
    ∀ (a b : SimAcc),
      L.foldl accFold (some a) = some b →
      (∀ n, 0 ≤ a.ssum n ∧ 0 ≤ a.cnt n) →
      (∀ n ∈ a.keys, 0 < a.ssum n ∧ 0 < a.cnt n) →
      (∀ n, 0 ≤ b.ssum n ∧ 0 ≤ b.cnt n) ∧
        (∀ n ∈ b.keys, 0 < b.ssum n ∧ 0 < b.cnt n) := by
  induction L with
  | nil =>
    intro a b hfold hnn hpos
    simp only [List.foldl_nil, Option.some.injEq] at hfold
    subst hfold
    exact ⟨hnn, hpos⟩
  | cons t ts ih =>
    intro a b hfold hnn hpos
    rcases t with ⟨u, v, os⟩
    cases os with
    | none =>
      exfalso
      rw [List.foldl_cons] at hfold
      have hstep : accFold (some a) (u, v, none) = none := rfl
      rw [hstep, foldl_accFold_none] at hfold
      cases hfold
    | some s =>
      rw [List.foldl_cons] at hfold
      have hstep : accFold (some a) (u, v, some s) = some (accStep a u v s) := rfl
      rw [hstep] at hfold
      refine ih (accStep a u v s) b hfold ?_ ?_
      · intro n
        rw [accStep_ssum_eval, accStep_cnt_eval]
        constructor
        · refine add_nonneg (hnn n).1 ?_
          by_cases h0 : 0 < s
          · rw [if_pos h0]
            refine add_nonneg ?_ ?_ <;> [skip; skip] <;>
              first
                | (split
                   · exact le_of_lt h0
                   · exact le_refl 0)
          · rw [if_neg h0]
        · refine add_nonneg (hnn n).2 ?_
          by_cases h0 : 0 < s
          · rw [if_pos h0]
            refine add_nonneg ?_ ?_ <;>
              first
                | (split
                   · norm_num
                   · exact le_refl 0)
          · rw [if_neg h0]
      · intro n hn
        rw [accStep_keys_mem] at hn
        rw [accStep_ssum_eval, accStep_cnt_eval]
        rcases hn with hn | ⟨htouch, h0⟩
        · have h1 := (hpos n hn).1
          have h2 := (hpos n hn).2
          constructor
          · refine lt_of_lt_of_le h1 (le_add_of_nonneg_right ?_)
            by_cases h0 : 0 < s
            · rw [if_pos h0]
              refine add_nonneg ?_ ?_ <;>
                first
                  | (split
                     · exact le_of_lt h0
                     · exact le_refl 0)
            · rw [if_neg h0]
          · refine lt_of_lt_of_le h2 (le_add_of_nonneg_right ?_)
            by_cases h0 : 0 < s
            · rw [if_pos h0]
              refine add_nonneg ?_ ?_ <;>
                first
                  | (split
                     · norm_num
                     · exact le_refl 0)
            · rw [if_neg h0]
        · constructor
          · refine lt_add_of_nonneg_of_lt (hnn n).1 ?_
            rw [if_pos h0]
            rcases htouch with h | h
            · rw [if_pos h.symm]
              exact add_pos_of_pos_of_nonneg h0 (by split <;> [exact le_of_lt h0; exact le_refl 0])
            · rw [if_pos h.symm]
              exact add_pos_of_nonneg_of_pos (by split <;> [exact le_of_lt h0; exact le_refl 0]) h0
          · refine lt_add_of_nonneg_of_lt (hnn n).2 ?_
            rw [if_pos h0]
            rcases htouch with h | h
            · rw [if_pos h.symm]
              exact add_pos_of_pos_of_nonneg one_pos (by split <;> norm_num)
            · rw [if_pos h.symm]
              exact add_pos_of_nonneg_of_pos (by split <;> norm_num) one_pos

theorem awl_fold (il : ℚ → ℚ) (weighted : Bool) (g : WGraph) :
    ∀ (l : List ℕ) (a : ℕ → Option ℚ), l.Nodup → ∀ n,
      (l.foldl (awl_step il weighted g) a) n =
        if n ∈ l ∧ ¬ (dOf g weighted n < 2) then some (il (dOf g weighted n)) else a n := by
  intro l
  induction l with
  | nil =>
    intro a _ n
    simp
  | cons x xs ih =>
    intro a hnd n
    rcases List.nodup_cons.1 hnd with ⟨hx, hxs⟩
    rw [List.foldl_cons, ih (awl_step il weighted g a x) hxs n]
    by_cases hmem : n ∈ xs ∧ ¬ (dOf g weighted n < 2)
    · rw [if_pos hmem, if_pos ⟨List.mem_cons_of_mem _ hmem.1, hmem.2⟩]
    · rw [if_neg hmem]
      unfold awl_step
      by_cases hnx : n = x
      · subst hnx
        by_cases hd : dOf g weighted n < 2
        · rw [if_pos hd, if_neg (fun hc => hc.2 hd)]
        · rw [if_neg hd]
          rw [if_pos (show n ∈ n :: xs ∧ ¬ dOf g weighted n < 2 from
            ⟨List.mem_cons_self _ _, hd⟩)]
          simp
      · by_cases hd : dOf g weighted x < 2
        · rw [if_pos hd]
          rw [if_neg ?_]
          rintro ⟨hmem', hd'⟩
          rcases List.mem_cons.1 hmem' with h | h
          · exact hnx h
          · exact hmem ⟨h, hd'⟩
        · rw [if_neg hd]
          simp only [if_neg hnx]
          rw [if_neg ?_]
          rintro ⟨hmem', hd'⟩
          rcases List.mem_cons.1 hmem' with h | h
          · exact hnx h
          · exact hmem ⟨h, hd'⟩

theorem awl_attr (il : ℚ → ℚ) (weighted : Bool) (g : WGraph)
    (hnd : g.nodes.Nodup) (n : ℕ) :
    (add_weight_log il weighted g).wlogAttr n =
      if n ∈ g.nodes ∧ ¬ (dOf g weighted n < 2) then some (il (dOf g weighted n))
      else g.wlogAttr n := by
  unfold add_weight_log
  exact awl_fold il weighted g g.nodes g.wlogAttr hnd n

theorem mem_nbrsList {g : WGraph} {u w : ℕ} :
    w ∈ nbrsList g u ↔
      ∃ e ∈ g.edges, (e.1 = u ∧ e.2.1 = w) ∨ (e.2.1 = u ∧ e.1 = w) := by
  unfold nbrsList
  rw [List.mem_dedup, List.mem_filterMap]
  constructor
  · rintro ⟨e, he, hfe⟩
    refine ⟨e, he, ?_⟩
    by_cases h1 : e.1 = u
    · rw [if_pos h1, Option.some.injEq] at hfe
      exact Or.inl ⟨h1, hfe⟩
    · by_cases h2 : e.2.1 = u
      · rw [if_neg h1, if_pos h2, Option.some.injEq] at hfe
        exact Or.inr ⟨h2, hfe⟩
      · rw [if_neg h1, if_neg h2] at hfe
        cases hfe
  · rintro ⟨e, he, hor⟩
    refine ⟨e, he, ?_⟩
    rcases hor with ⟨h1, h2⟩ | ⟨h1, h2⟩
    · rw [if_pos h1, h2]
    · by_cases h3 : e.1 = u
      · rw [if_pos h3]
        have : e.2.1 = w := by rw [h1, ← h3, h2]
        rw [this]
      · rw [if_neg h3, if_pos h1, h2]

theorem wt_of_uniform {g : WGraph} {c : ℚ} (hu : ∀ e ∈ g.edges, e.2.2 = c) (u v : ℕ) :
    wt g u v = c ∨ wt g u v = 0 := by
  unfold wt
  cases hfind : g.edges.find?
      (fun e => (e.1 == u && e.2.1 == v) || (e.1 == v && e.2.1 == u)) with
  | none => exact Or.inr rfl
  | some e => exact Or.inl (hu e (List.mem_of_find?_eq_some hfind))

theorem wt_of_nbr {g : WGraph} {c : ℚ} (hu : ∀ e ∈ g.edges, e.2.2 = c) {u w : ℕ}
    (hw : w ∈ nbrsList g u) : wt g u w = c := by
  rcases mem_nbrsList.1 hw with ⟨e, he, hor⟩
  unfold wt
  cases hfind : g.edges.find?
      (fun e => (e.1 == u && e.2.1 == w) || (e.1 == w && e.2.1 == u)) with
  | some e' => exact hu e' (List.mem_of_find?_eq_some hfind)
  | none =>
    exfalso
    have hnone := List.find?_eq_none.1 hfind e he
    rcases hor with ⟨h1, h2⟩ | ⟨h1, h2⟩
    · exact hnone (by simp [h1, h2])
    · exact hnone (by simp [h1, h2])

theorem non_edges_awl (il : ℚ → ℚ) (weighted : Bool) (g : WGraph) :
    non_edges (add_weight_log il weighted g) = non_edges g := rfl

theorem run_algorithm_none_iff (il : ℚ → ℚ) (alg : String) (g : WGraph) :
    run_algorithm il alg g = none ↔ alg ∉ supported_algorithms := by
  unfold run_algorithm supported_algorithms
  by_cases h1 : alg = "jaccard"
  · simp [h1]
  · by_cases h2 : alg = "adamic_adar"
    · simp [h2]
    · by_cases h3 : alg = "weighted_jaccard"
      · simp [h3]
      · by_cases h4 : alg = "weighted_adamic_adar"
        · simp [h4]
        · simp [h1, h2, h3, h4]

theorem scores_shape (il : ℚ → ℚ) (alg : String) (g : WGraph)
    (halg : alg ∈ supported_algorithms) :
    ∃ f : ℕ × ℕ → Option ℚ,
      run_algorithm il alg g = some ((non_edges g).map (fun p => (p.1, p.2, f p))) := by
  unfold supported_algorithms at halg
  simp only [List.mem_cons, List.mem_singleton, List.not_mem_nil, or_false] at halg
  rcases halg with rfl | rfl | rfl | rfl
  · refine ⟨fun p => some (jaccard_score g p.1 p.2), ?_⟩
    unfold run_algorithm jaccard_coefficient
    rw [if_pos rfl]
    simp [List.map_map]
  · refine ⟨fun p => predict_aa (add_weight_log il false g) p.1 p.2, ?_⟩
    unfold run_algorithm
    rw [if_neg (by decide), if_pos rfl]
    unfold adamic_adar_index adamic_adar_core
    show some (List.map (fun p => (p.1, p.2, predict_aa (add_weight_log il false g) p.1 p.2))
      (non_edges (add_weight_log il false g))) = _
    rw [non_edges_awl]
  · refine ⟨fun p => some (weighted_jaccard_score g p.1 p.2), ?_⟩
    unfold run_algorithm weighted_jaccard_coefficient
    rw [if_neg (by decide), if_neg (by decide), if_pos rfl]
    simp [List.map_map]
  · refine ⟨fun p => predict_aa (add_weight_log il true g) p.1 p.2, ?_⟩
    unfold run_algorithm
    rw [if_neg (by decide), if_neg (by decide), if_neg (by decide), if_pos rfl]
    unfold weighted_adamic_adar_index adamic_adar_core
    show some (List.map (fun p => (p.1, p.2, predict_aa (add_weight_log il true g) p.1 p.2))
      (non_edges (add_weight_log il true g))) = _
    rw [non_edges_awl]

theorem mem_non_edges {g : WGraph} {p : ℕ × ℕ} :
    p ∈ non_edges g ↔ p ∈ pairsOf g.nodes ∧ adjb g p.1 p.2 = false := by
  unfold non_edges
  rw [List.mem_filter]
  simp

theorem non_edges_ne {g : WGraph} (hnd : g.nodes.Nodup) {p : ℕ × ℕ}
    (hp : p ∈ non_edges g) : p.1 ≠ p.2 :=
  pairsOf_ne hnd (mem_non_edges.1 hp).1

theorem scores_endpoints_ne (il : ℚ → ℚ) (alg : String) (g : WGraph)
    (hnd : g.nodes.Nodup) (halg : alg ∈ supported_algorithms)
    {scores : List (ℕ × ℕ × Option ℚ)}
    (hsc : run_algorithm il alg g = some scores) :
    ∀ t ∈ scores, t.1 ≠ t.2.1 := by
  rcases scores_shape il alg g halg with ⟨f, hf⟩
  rw [hf] at hsc
  cases hsc
  intro t ht
  rcases List.mem_map.1 ht with ⟨p, hp, rfl⟩
  exact non_edges_ne hnd hp

theorem avg_char (il : ℚ → ℚ) (alg : String) (g : WGraph)
    (rows : List (ℕ × ℚ)) (scores : List (ℕ × ℕ × Option ℚ))
    (hnc : is_clique g = false)
    (hsc : run_algorithm il alg g = some scores)
    (hne : ∀ t ∈ scores, t.1 ≠ t.2.1)
    (hok : avg_similarity_4_nodes_by_graph il alg g = .ok rows) :
    (∀ n, rows.lookup n =
      if 0 < contrib_cnt scores n then
        some (contrib_sum scores n / contrib_cnt scores n)
      else none) ∧
    (rows.map Prod.fst).Nodup := by
  cases hacc : accumPairs scores with
  | none =>
    exfalso
    have havg : avg_similarity_4_nodes_by_graph il alg g = .error .keyError := by
      unfold avg_similarity_4_nodes_by_graph
      rw [hnc]
      simp only [Bool.false_eq_true, if_false]
      rw [hsc]
      show (match accumPairs scores with
            | none => (Except.error SimError.keyError : Except SimError (List (ℕ × ℚ)))
            | some a => Except.ok (a.keys.map (fun n => (n, a.ssum n / a.cnt n)))) = _
      rw [hacc]
    rw [havg] at hok
    cases hok
  | some acc =>
    have havg : avg_similarity_4_nodes_by_graph il alg g =
        .ok (acc.keys.map (fun n => (n, acc.ssum n / acc.cnt n))) := by
      unfold avg_similarity_4_nodes_by_graph
      rw [hnc]
      simp only [Bool.false_eq_true, if_false]
      rw [hsc]
      show (match accumPairs scores with
            | none => (Except.error SimError.keyError : Except SimError (List (ℕ × ℚ)))
            | some a => Except.ok (a.keys.map (fun n => (n, a.ssum n / a.cnt n)))) = _
      rw [hacc]
    rw [havg] at hok
    simp only [Except.ok.injEq] at hok
    subst hok
    unfold accumPairs at hacc
    rcases accum_go scores _ acc hne hacc with ⟨hs, hc, hk, hnodup⟩
    have hkeys_nodup : acc.keys.Nodup := hnodup (List.nodup_nil)
    constructor
    · intro n
      rw [lookup_map_self (fun n => acc.ssum n / acc.cnt n) acc.keys n]
      by_cases hmem : n ∈ acc.keys
      · have hcnt : 0 < contrib_cnt scores n := by
          rcases (hk n).1 hmem with h | h
          · cases h
          · exact h
        rw [if_pos hmem, if_pos hcnt, hs n, hc n]
        simp
      · have hcnt : ¬ 0 < contrib_cnt scores n := by
          intro hpos
          exact hmem ((hk n).2 (Or.inr hpos))
        rw [if_neg hmem, if_neg hcnt]
    · have : List.map Prod.fst (List.map (fun n => (n, acc.ssum n / acc.cnt n)) acc.keys)
        = acc.keys := by
        rw [List.map_map]
        show List.map id acc.keys = acc.keys
        exact List.map_id acc.keys
      rw [this]
      exact hkeys_nodup

/-- The triangle (complete graph on 3 nodes) with unit weights. -/
def triangle : WGraph :=
  { nodes := [0, 1, 2]
    edges := [(0, 1, 1), (0, 2, 1), (1, 2, 1)]
    wlogAttr := fun _ => none
    fattrs := fun _ _ => none }

/-- The empty graph. -/
def nullGraph : WGraph :=
  { nodes := []
    edges := []
    wlogAttr := fun _ => none
    fattrs := fun _ _ => none }

/-- C3: for every complete graph (|E| = n(n-1)/2) and every one of the four
supported algorithms, avg_similarity_4_nodes_by_graph short-circuits through
the clique branch and returns the mapping assigning exactly 1.0 to every
node of the graph; in particular a single-node subgraph yields its one node
mapped to 1.0 and an empty subgraph yields the empty mapping. -/
theorem C3_clique_invariant (il : ℚ → ℚ) (alg : String) (g : WGraph)
    (hwf : WF g) (halg : alg ∈ supported_algorithms)
    (hcomp : (g.edges.length : ℚ) =
      (g.nodes.length : ℚ) * ((g.nodes.length : ℚ) - 1) / 2) :
    avg_similarity_4_nodes_by_graph il alg g = .ok (g.nodes.map (fun n => (n, 1))) := by
  have hcl : is_clique g = true := by
    unfold is_clique
    exact decide_eq_true hcomp
  unfold avg_similarity_4_nodes_by_graph
  rw [hcl]
  simp

theorem C3_witness :
    avg_similarity_4_nodes_by_graph (fun _ => 1) "jaccard" triangle =
      .ok [(0, 1), (1, 1), (2, 1)] ∧
    avg_similarity_4_nodes_by_graph (fun _ => 1) "adamic_adar" single7 = .ok [(7, 1)] ∧
    avg_similarity_4_nodes_by_graph (fun _ => 1) "weighted_jaccard" nullGraph = .ok [] := by
  refine ⟨?_, ?_, ?_⟩
  · have h := C3_clique_invariant (fun _ => 1) "jaccard" triangle (by decide) (by decide)
      (by norm_num [triangle])
    simpa [triangle] using h
  · have h := C3_clique_invariant (fun _ => 1) "adamic_adar" single7 (by decide) (by decide)
      (by norm_num [single7])
    simpa [single7] using h
  · have h := C3_clique_invariant (fun _ => 1) "weighted_jaccard" nullGraph (by decide)
      (by decide) (by norm_num [nullGraph])
    simpa [nullGraph] using h

/-- C9: on a non-clique subgraph, an algorithm identifier outside the four
supported names makes avg_similarity_4_nodes_by_graph fail with the
unsupported-algorithm error (the `ValueError` raised before any similarity
is computed), while each supported identifier dispatches to its algorithm
and never produces that error. -/
theorem C9_dispatch (il : ℚ → ℚ) (alg : String) (g : WGraph)
    (hnc : is_clique g = false) :
    (alg ∉ supported_algorithms →
      avg_similarity_4_nodes_by_graph il alg g = .error .unsupportedAlgorithm) ∧
    (alg ∈ supported_algorithms →
      avg_similarity_4_nodes_by_graph il alg g ≠ .error .unsupportedAlgorithm) := by
  constructor
  · intro hna
    have hrn : run_algorithm il alg g = none := (run_algorithm_none_iff il alg g).2 hna
    unfold avg_similarity_4_nodes_by_graph
    rw [hnc]
    simp only [Bool.false_eq_true, if_false]
    rw [hrn]
  · intro ha
    rcases scores_shape il alg g ha with ⟨f, hf⟩
    unfold avg_similarity_4_nodes_by_graph
    rw [hnc]
    simp only [Bool.false_eq_true, if_false]
    rw [hf]
    show (match accumPairs ((non_edges g).map (fun p => (p.1, p.2, f p))) with
          | none => (Except.error SimError.keyError : Except SimError (List (ℕ × ℚ)))
          | some a => Except.ok (a.keys.map (fun n => (n, a.ssum n / a.cnt n)))) ≠ _
    cases accumPairs ((non_edges g).map (fun p => (p.1, p.2, f p))) with
    | none =>
      intro hcontra
      injection hcontra with h2
      exact SimError.noConfusion h2
    | some acc =>
      intro hcontra
      exact Except.noConfusion hcontra

theorem C9_witness :
    avg_similarity_4_nodes_by_graph (fun _ => 1) "foo" path3 =
      .error .unsupportedAlgorithm ∧
    avg_similarity_4_nodes_by_graph (fun _ => 1) "jaccard" path3 ≠
      .error .unsupportedAlgorithm :=
  ⟨(C9_dispatch (fun _ => 1) "foo" path3 (by norm_num [is_clique, path3])).1 (by decide),
   (C9_dispatch (fun _ => 1) "jaccard" path3 (by norm_num [is_clique, path3])).2 (by decide)⟩

/-- C10: every value in a mapping successfully returned by
avg_similarity_4_nodes_by_graph is strictly positive: the clique branch
assigns exactly 1.0, and in the general branch a node is present only when
at least one pair involving it scored above 0, so its average is a positive
sum divided by a positive count; a node with no positive-scoring pair is
absent rather than mapped to 0. -/
theorem C10_values_pos (il : ℚ → ℚ) (alg : String) (g : WGraph) (rows : List (ℕ × ℚ))
    (hok : avg_similarity_4_nodes_by_graph il alg g = .ok rows) :
    ∀ p ∈ rows, 0 < p.2 := by
  cases hcl : is_clique g with
  | true =>
    have havg : avg_similarity_4_nodes_by_graph il alg g =
        .ok (g.nodes.map (fun n => (n, 1))) := by
      unfold avg_similarity_4_nodes_by_graph
      rw [hcl]
      simp
    rw [havg] at hok
    simp only [Except.ok.injEq] at hok
    subst hok
    intro p hp
    rcases List.mem_map.1 hp with ⟨n, _, rfl⟩
    exact one_pos
  | false =>
    cases hrn : run_algorithm il alg g with
    | none =>
      exfalso
      have havg : avg_similarity_4_nodes_by_graph il alg g =
          .error .unsupportedAlgorithm := by
        unfold avg_similarity_4_nodes_by_graph
        rw [hcl]
        simp only [Bool.false_eq_true, if_false]
        rw [hrn]
      rw [havg] at hok
      cases hok
    | some scores =>
      cases hacc : accumPairs scores with
      | none =>
        exfalso
        have havg : avg_similarity_4_nodes_by_graph il alg g = .error .keyError := by
          unfold avg_similarity_4_nodes_by_graph
          rw [hcl]
          simp only [Bool.false_eq_true, if_false]
          rw [hrn]
          show (match accumPairs scores with
                | none => (Except.error SimError.keyError : Except SimError (List (ℕ × ℚ)))
                | some a => Except.ok (a.keys.map (fun n => (n, a.ssum n / a.cnt n)))) = _
          rw [hacc]
        rw [havg] at hok
        cases hok
      | some acc =>
        have havg : avg_similarity_4_nodes_by_graph il alg g =
            .ok (acc.keys.map (fun n => (n, acc.ssum n / acc.cnt n))) := by
          unfold avg_similarity_4_nodes_by_graph
          rw [hcl]
          simp only [Bool.false_eq_true, if_false]
          rw [hrn]
          show (match accumPairs scores with
                | none => (Except.error SimError.keyError : Except SimError (List (ℕ × ℚ)))
                | some a => Except.ok (a.keys.map (fun n => (n, a.ssum n / a.cnt n)))) = _
          rw [hacc]
        rw [havg] at hok
        simp only [Except.ok.injEq] at hok
        subst hok
        unfold accumPairs at hacc
        rcases accum_pos scores ⟨[], fun _ => 0, fun _ => 0⟩ acc hacc
          (fun n => ⟨le_refl 0, le_refl 0⟩)
          (fun n hn => absurd hn (List.not_mem_nil n)) with ⟨_, hpos⟩
        intro p hp
        rcases List.mem_map.1 hp with ⟨n, hn, rfl⟩
        exact div_pos (hpos n hn).1 (hpos n hn).2

theorem C10_witness :
    avg_similarity_4_nodes_by_graph (fun _ => 1) "jaccard" single7 = .ok [(7, 1)] ∧
    (0 : ℚ) < 1 := by
  have h : avg_similarity_4_nodes_by_graph (fun _ => 1) "jaccard" single7 =
      .ok [(7, 1)] := by
    unfold avg_similarity_4_nodes_by_graph
    rw [show is_clique single7 = true by norm_num [is_clique, single7]]
    simp [single7]
  exact ⟨h, C10_values_pos (fun _ => 1) "jaccard" single7 [(7, 1)] h (7, 1)
    (List.mem_singleton.2 rfl)⟩

/-- C1 as stated is false on the code: on the non-clique path 0-1-2, the
similarity algorithm dispatched by avg_similarity_4_nodes_by_graph is
evaluated only over the single non-adjacent pair (0, 2) produced by
`nx.non_edges`, not over all node pairs — the adjacent pair (0, 1) is a node
pair of the subgraph that is never evaluated. -/
theorem C1_counterexample :
    is_clique path3 = false ∧
    (0, 1) ∈ allNodePairs path3 ∧
    evaluated_pairs (fun _ => 1) "jaccard" path3 = [(0, 2)] ∧
    (0, 1) ∉ evaluated_pairs (fun _ => 1) "jaccard" path3 :=
  ⟨by norm_num [is_clique, path3], by decide, by decide, by decide⟩

/-- C1 (amended): for every non-clique subgraph and supported algorithm,
avg_similarity_4_nodes_by_graph evaluates the selected algorithm over
exactly the non-adjacent node pairs of the subgraph (`nx.non_edges`), and
accumulates, for every evaluated pair with score above 0, the score and a +1
count onto both endpoints: each returned node maps to its accumulated
score sum divided by its contributing-pair count, and nodes with no
contributing pair are absent. -/
theorem C1_pairs_and_accumulation (il : ℚ → ℚ) (alg : String) (g : WGraph)
    (hnd : g.nodes.Nodup) (halg : alg ∈ supported_algorithms)
    (hnc : is_clique g = false) :
    (∀ p, p ∈ evaluated_pairs il alg g ↔
        (p ∈ allNodePairs g ∧ adjb g p.1 p.2 = false)) ∧
    (∀ rows scores, avg_similarity_4_nodes_by_graph il alg g = .ok rows →
      run_algorithm il alg g = some scores →
      ∀ n, rows.lookup n =
        if 0 < contrib_cnt scores n then
          some (contrib_sum scores n / contrib_cnt scores n)
        else none) := by
  rcases scores_shape il alg g halg with ⟨f, hf⟩
  constructor
  · intro p
    unfold evaluated_pairs
    rw [hf]
    simp only [Option.getD_some, List.map_map]
    have hcomp : ((fun t : ℕ × ℕ × Option ℚ => (t.1, t.2.1)) ∘
        (fun p : ℕ × ℕ => (p.1, p.2, f p))) = id := by
      funext q
      rfl
    rw [hcomp, List.map_id]
    exact mem_non_edges
  · intro rows scores hok hsc
    have hne := scores_endpoints_ne il alg g hnd halg hsc
    exact (avg_char il alg g rows scores hnc hsc hne hok).1 

theorem C1_witness :
    path3.nodes.Nodup ∧ "jaccard" ∈ supported_algorithms ∧ is_clique path3 = false ∧
    ((0, 2) ∈ evaluated_pairs (fun _ => 1) "jaccard" path3 ↔
      ((0, 2) ∈ allNodePairs path3 ∧ adjb path3 0 2 = false)) :=
  ⟨by decide, by decide, by norm_num [is_clique, path3],
   (C1_pairs_and_accumulation (fun _ => 1) "jaccard" path3 (by decide) (by decide)
      (by norm_num [is_clique, path3])).1 (0, 2)⟩

/-- C2: the claim is right about the intent (the in-code comment asserts the
attribute read is always safe, and the spec says weighted degree < 2 nodes
are "skipped identically"), but the code is wrong: on `bugGraph` the common
neighbor 2 of the evaluated pair (0, 1) has weighted degree 1 < 2, so
`add_weight_log` never assigns its "1_over_weight_log" attribute, and
`predict` then raises `KeyError` (modelled as a `none` score) instead of
skipping it — the evaluation fails rather than contributing nothing. -/
theorem C2_keyerror_eval (il : ℚ → ℚ) :
    wdeg bugGraph 2 = 1 ∧
    (weighted_adamic_adar_index il bugGraph).2 = [(0, 1, none)] ∧
    avg_similarity_4_nodes_by_graph il "weighted_adamic_adar" bugGraph =
      .error .keyError := by
  have hW0 : dOf bugGraph true 0 < 2 := by norm_num [dOf, wdeg, bugGraph]
  have hW1 : dOf bugGraph true 1 < 2 := by norm_num [dOf, wdeg, bugGraph]
  have hW2 : dOf bugGraph true 2 < 2 := by norm_num [dOf, wdeg, bugGraph]
  have hfold : [0, 1, 2].foldl (awl_step il true bugGraph) bugGraph.wlogAttr =
      bugGraph.wlogAttr := by
    simp only [List.foldl_cons, List.foldl_nil, awl_step, if_pos hW0, if_pos hW1, if_pos hW2]
  have hawl : add_weight_log il true bugGraph = bugGraph := by
    unfold add_weight_log
    show ({ bugGraph with
      wlogAttr := [0, 1, 2].foldl (awl_step il true bugGraph) bugGraph.wlogAttr } : WGraph)
      = bugGraph
    rw [hfold]
  have hsc : (weighted_adamic_adar_index il bugGraph).2 = [(0, 1, none)] := by
    unfold weighted_adamic_adar_index adamic_adar_core
    show (non_edges (add_weight_log il true bugGraph)).map
        (fun p => (p.1, p.2, predict_aa (add_weight_log il true bugGraph) p.1 p.2)) = _
    rw [hawl]
    rw [show non_edges bugGraph = [(0, 1)] from rfl]
    show [((0:ℕ), (1:ℕ), predict_aa bugGraph 0 1)] = [(0, 1, none)]
    rw [show predict_aa bugGraph 0 1 = none from rfl]
  refine ⟨by norm_num [wdeg, bugGraph], hsc, ?_⟩
  unfold avg_similarity_4_nodes_by_graph
  rw [show is_clique bugGraph = false by norm_num [is_clique, bugGraph]]
  simp only [Bool.false_eq_true, if_false]
  have hrn : run_algorithm il "weighted_adamic_adar" bugGraph = some [(0, 1, none)] := by
    unfold run_algorithm
    rw [if_neg (by decide), if_neg (by decide), if_neg (by decide), if_pos rfl, hsc]
  rw [hrn]
  show (match accumPairs [((0:ℕ), (1:ℕ), (none : Option ℚ))] with
        | none => (Except.error SimError.keyError : Except SimError (List (ℕ × ℚ)))
        | some a => Except.ok (a.keys.map (fun n => (n, a.ssum n / a.cnt n)))) = _
  rw [show accumPairs [((0:ℕ), (1:ℕ), (none : Option ℚ))] = none from rfl]

/-- C5 as stated is false on the code: weighted_adamic_adar_index is not a
pure function of the graph — on the star graph its `add_weight_log` call
writes the "1_over_weight_log" node attribute of the center node, so the
node attributes of the input graph change. -/
theorem C5_counterexample :
    (weighted_adamic_adar_index (fun _ => (1:ℚ)) star3).1.wlogAttr 0 ≠
      star3.wlogAttr 0 := by
  have h : (add_weight_log (fun _ => (1:ℚ)) true star3).wlogAttr 0 = some 1 := by
    rw [awl_attr (fun _ => (1:ℚ)) true star3 (by decide) 0]
    rw [if_pos (show 0 ∈ star3.nodes ∧ ¬ dOf star3 true 0 < 2 from
      ⟨by decide, by norm_num [dOf, wdeg, star3]⟩)]
  show (add_weight_log (fun _ => (1:ℚ)) true star3).wlogAttr 0 ≠ star3.wlogAttr 0
  rw [h]
  show some 1 ≠ none
  exact fun hc => Option.noConfusion hc

/-- C5 (amended): jaccard_coefficient and weighted_jaccard_coefficient are
pure — they return the input graph unchanged — while adamic_adar_index and
weighted_adamic_adar_index leave the node set, edge set (hence edge weights)
and categorical feature attributes unchanged but write the
"1_over_weight_log" node attribute of every node whose (respectively
unweighted or weighted) degree is at least 2, leaving other nodes'
attributes untouched. -/
theorem C5_frame_effects (il : ℚ → ℚ) (g : WGraph) (hnd : g.nodes.Nodup) :
    (jaccard_coefficient g).1 = g ∧
    (weighted_jaccard_coefficient g).1 = g ∧
    ((adamic_adar_index il g).1.nodes = g.nodes ∧
      (adamic_adar_index il g).1.edges = g.edges ∧
      (adamic_adar_index il g).1.fattrs = g.fattrs ∧
      (∀ n, (adamic_adar_index il g).1.wlogAttr n =
        if n ∈ g.nodes ∧ ¬ (dOf g false n < 2) then some (il (dOf g false n))
        else g.wlogAttr n)) ∧
    ((weighted_adamic_adar_index il g).1.nodes = g.nodes ∧
      (weighted_adamic_adar_index il g).1.edges = g.edges ∧
      (weighted_adamic_adar_index il g).1.fattrs = g.fattrs ∧
      (∀ n, (weighted_adamic_adar_index il g).1.wlogAttr n =
        if n ∈ g.nodes ∧ ¬ (dOf g true n < 2) then some (il (dOf g true n))
        else g.wlogAttr n)) := by
  refine ⟨rfl, rfl, ⟨rfl, rfl, rfl, ?_⟩, ⟨rfl, rfl, rfl, ?_⟩⟩
  · intro n
    show (add_weight_log il false g).wlogAttr n = _
    exact awl_attr il false g hnd n
  · intro n
    show (add_weight_log il true g).wlogAttr n = _
    exact awl_attr il true g hnd n

theorem C5_witness :
    (jaccard_coefficient star3).1 = star3 ∧
    (weighted_adamic_adar_index (fun _ => (1:ℚ)) star3).1.edges = star3.edges :=
  ⟨(C5_frame_effects (fun _ => 1) star3 (by decide)).1,
   (C5_frame_effects (fun _ => 1) star3 (by decide)).2.2.2.2.1⟩

theorem mem_interL {xs ys : List ℕ} {w : ℕ} :
    w ∈ interL xs ys ↔ w ∈ xs ∧ w ∈ ys := by
  unfold interL
  rw [List.mem_filter]
  simp

theorem mem_unionL {xs ys : List ℕ} {w : ℕ} :
    w ∈ unionL xs ys ↔ w ∈ xs ∨ w ∈ ys := by
  unfold unionL
  rw [List.mem_append, List.mem_filter]
  simp
  tauto

/-- C8: on a graph whose edge weights all equal one positive constant,
weighted_jaccard_coefficient produces exactly the same score as
jaccard_coefficient for every node pair (the constant cancels between the
min-sum numerator and the max-sum denominator), and hence the two functions
emit identical scored-pair streams over the evaluated (non-edge) pairs. -/
theorem C8_uniform_weights (g : WGraph) (c : ℚ) (hc : 0 < c)
    (hu : ∀ e ∈ g.edges, e.2.2 = c) :
    (∀ u v, weighted_jaccard_score g u v = jaccard_score g u v) ∧
    (weighted_jaccard_coefficient g).2 = (jaccard_coefficient g).2 := by
  have hscore : ∀ u v, weighted_jaccard_score g u v = jaccard_score g u v := by
    intro u v
    show (if (unionL (nbrsList g u) (nbrsList g v)).isEmpty then (0:ℚ)
          else if (interL (nbrsList g u) (nbrsList g v)).isEmpty then 0
          else ((interL (nbrsList g u) (nbrsList g v)).map
              (fun w => min (wt g v w) (wt g u w))).sum /
            ((unionL (nbrsList g u) (nbrsList g v)).map
              (fun w => max (wt g v w) (wt g u w))).sum) =
        (if (unionL (nbrsList g u) (nbrsList g v)).isEmpty then (0:ℚ)
          else if (interL (nbrsList g u) (nbrsList g v)).isEmpty then 0
          else ((interL (nbrsList g u) (nbrsList g v)).length : ℚ) /
            ((unionL (nbrsList g u) (nbrsList g v)).length : ℚ))
    by_cases han : (unionL (nbrsList g u) (nbrsList g v)).isEmpty
    · rw [if_pos han, if_pos han]
    · rw [if_neg han, if_neg han]
      by_cases hcn : (interL (nbrsList g u) (nbrsList g v)).isEmpty
      · rw [if_pos hcn, if_pos hcn]
      · rw [if_neg hcn, if_neg hcn]
        have hnum : ((interL (nbrsList g u) (nbrsList g v)).map
            (fun w => min (wt g v w) (wt g u w))).sum =
            ((interL (nbrsList g u) (nbrsList g v)).length : ℚ) * c := by
          rw [← sum_map_constq c (interL (nbrsList g u) (nbrsList g v))]
          apply congrArg
          apply List.map_congr_left
          intro w hw
          rcases mem_interL.1 hw with ⟨hwu, hwv⟩
          rw [wt_of_nbr hu hwv, wt_of_nbr hu hwu]
          exact min_self c
        have hden : ((unionL (nbrsList g u) (nbrsList g v)).map
            (fun w => max (wt g v w) (wt g u w))).sum =
            ((unionL (nbrsList g u) (nbrsList g v)).length : ℚ) * c := by
          rw [← sum_map_constq c (unionL (nbrsList g u) (nbrsList g v))]
          apply congrArg
          apply List.map_congr_left
          intro w hw
          rcases mem_unionL.1 hw with hwu | hwv
          · rw [wt_of_nbr hu hwu]
            rcases wt_of_uniform hu v w with h | h
            · rw [h]
              exact max_self c
            · rw [h]
              exact max_eq_right hc.le
          · rw [wt_of_nbr hu hwv]
            rcases wt_of_uniform hu u w with h | h
            · rw [h]
              exact max_self c
            · rw [h]
              exact max_eq_left hc.le
        rw [hnum, hden]
        exact mul_div_mul_right _ _ (ne_of_gt hc)
  refine ⟨hscore, ?_⟩
  unfold weighted_jaccard_coefficient jaccard_coefficient
  show (non_edges g).map (fun p => (p.1, p.2, weighted_jaccard_score g p.1 p.2)) =
    (non_edges g).map (fun p => (p.1, p.2, jaccard_score g p.1 p.2))
  apply List.map_congr_left
  intro p _
  rw [hscore p.1 p.2]

theorem C8_witness :
    (0:ℚ) < 1 ∧ (∀ e ∈ path3.edges, e.2.2 = 1) ∧
    (weighted_jaccard_coefficient path3).2 = (jaccard_coefficient path3).2 :=
  ⟨one_pos, by decide, (C8_uniform_weights path3 1 one_pos (by decide)).2⟩

theorem pyEq_true_iff {x v : FVal} :
    pyEq x v = true ↔ (∃ a, x = .str a ∧ v = .str a) := by
  cases x with
  | nan =>
    cases v <;> simp [pyEq]
  | str a =>
    cases v with
    | nan => simp [pyEq]
    | str b =>
      simp only [pyEq, beq_iff_eq, FVal.str.injEq]
      constructor
      · rintro rfl
        exact ⟨a, rfl, rfl⟩
      · rintro ⟨c, rfl, h⟩
        exact h.symm

theorem mem_subgraphOn_nodes {g : WGraph} {ns : List ℕ} {n : ℕ} :
    n ∈ (subgraphOn g ns).nodes ↔ n ∈ g.nodes ∧ n ∈ ns := by
  unfold subgraphOn
  rw [List.mem_filter]
  simp

theorem mem_feature_nodes {g : WGraph} {f : String} {v : FVal} {n : ℕ} :
    n ∈ feature_nodes g f v ↔ n ∈ g.nodes ∧ optPyEq (g.fattrs f n) v = true := by
  unfold feature_nodes
  rw [List.mem_filter]

theorem mem_get_subgraphs {g : WGraph} {f : String} {v : FVal} {s : WGraph} :
    (v, s) ∈ get_subgraphs g f ↔
      (¬ (node_attributes g f).isEmpty = true ∧ v ∈ unique_feature_values g f ∧
        s = subgraphOn g (feature_nodes g f v)) := by
  unfold get_subgraphs
  by_cases h : (node_attributes g f).isEmpty
  · simp [h]
  · rw [if_neg h, List.mem_map]
    constructor
    · rintro ⟨v', hv', heq⟩
      cases heq
      exact ⟨h, hv', rfl⟩
    · rintro ⟨_, hv, rfl⟩
      exact ⟨v, hv, rfl⟩

theorem mem_unique_feature_values {g : WGraph} {f : String} {v : FVal} :
    v ∈ unique_feature_values g f ↔
      (∃ n ∈ g.nodes, g.fattrs f n = some v) ∧ pyEq v v = true := by
  unfold unique_feature_values
  rw [List.mem_dedup, List.mem_filter]
  constructor
  · rintro ⟨hmem, hself⟩
    refine ⟨?_, hself⟩
    rcases List.mem_map.1 hmem with ⟨⟨n, v'⟩, hnv, hsnd⟩
    rcases List.mem_filterMap.1 hnv with ⟨m, hm, hfm⟩
    cases hattr : g.fattrs f m with
    | none =>
      rw [hattr] at hfm
      cases hfm
    | some w =>
      rw [hattr] at hfm
      simp only [Option.map_some', Option.some.injEq, Prod.mk.injEq] at hfm
      refine ⟨m, hm, ?_⟩
      rw [hattr, hfm.2]
      have : v' = v := hsnd
      rw [this]
  · rintro ⟨⟨n, hn, hattr⟩, hself⟩
    refine ⟨?_, hself⟩
    apply List.mem_map.2
    refine ⟨(n, v), ?_, rfl⟩
    apply List.mem_filterMap.2
    refine ⟨n, hn, ?_⟩
    rw [hattr]
    rfl

/-- C6: for every graph and feature, get_subgraphs partitions exactly the
nodes carrying a non-missing (non-NaN) value of that feature: no node lies
in the subgraphs of two different feature values, and a node lies in some
subgraph exactly when it carries a non-NaN value of the feature. -/
theorem C6_partition (g : WGraph) (f : String) :
    (∀ v1 s1 v2 s2 n, (v1, s1) ∈ get_subgraphs g f → (v2, s2) ∈ get_subgraphs g f →
      n ∈ s1.nodes → n ∈ s2.nodes → v1 = v2) ∧
    (∀ n, (∃ p ∈ get_subgraphs g f, n ∈ p.2.nodes) ↔
      (n ∈ g.nodes ∧ ∃ v, g.fattrs f n = some v ∧ v ≠ FVal.nan)) := by
  constructor
  · intro v1 s1 v2 s2 n hp1 hp2 hn1 hn2
    rcases mem_get_subgraphs.1 hp1 with ⟨_, _, rfl⟩
    rcases mem_get_subgraphs.1 hp2 with ⟨_, _, rfl⟩
    rcases (mem_feature_nodes.1 (mem_subgraphOn_nodes.1 hn1).2) with ⟨_, he1⟩
    rcases (mem_feature_nodes.1 (mem_subgraphOn_nodes.1 hn2).2) with ⟨_, he2⟩
    cases hattr : g.fattrs f n with
    | none =>
      rw [hattr] at he1
      cases he1
    | some x =>
      rw [hattr] at he1 he2
      have h1 : pyEq x v1 = true := he1
      have h2 : pyEq x v2 = true := he2
      rcases pyEq_true_iff.1 h1 with ⟨a, rfl, rfl⟩
      rcases pyEq_true_iff.1 h2 with ⟨b, hb, rfl⟩
      cases hb
      rfl
  · intro n
    constructor
    · rintro ⟨⟨v, s⟩, hp, hn⟩
      rcases mem_get_subgraphs.1 hp with ⟨_, _, rfl⟩
      rcases mem_subgraphOn_nodes.1 hn with ⟨hng, hnf⟩
      rcases mem_feature_nodes.1 hnf with ⟨_, he⟩
      cases hattr : g.fattrs f n with
      | none =>
        rw [hattr] at he
        cases he
      | some x =>
        rw [hattr] at he
        have hx : pyEq x v = true := he
        rcases pyEq_true_iff.1 hx with ⟨a, rfl, rfl⟩
        exact ⟨hng, FVal.str a, rfl, fun hc => FVal.noConfusion hc⟩
    · rintro ⟨hng, v, hattr, hvnan⟩
      rcases v with _ | a
      · exact absurd rfl hvnan
      · have hself : pyEq (FVal.str a) (FVal.str a) = true := by
          simp [pyEq]
        have huniq : FVal.str a ∈ unique_feature_values g f :=
          mem_unique_feature_values.2 ⟨⟨n, hng, hattr⟩, hself⟩
        have hne : ¬ (node_attributes g f).isEmpty = true := by
          intro hempty
          have hmem : (n, FVal.str a) ∈ node_attributes g f := by
            apply List.mem_filterMap.2
            refine ⟨n, hng, ?_⟩
            rw [hattr]
            rfl
          rw [List.isEmpty_iff] at hempty
          rw [hempty] at hmem
          cases hmem
        refine ⟨(FVal.str a, subgraphOn g (feature_nodes g f (FVal.str a))),
          mem_get_subgraphs.2 ⟨hne, huniq, rfl⟩, ?_⟩
        apply mem_subgraphOn_nodes.2
        refine ⟨hng, mem_feature_nodes.2 ⟨hng, ?_⟩⟩
        rw [hattr]
        exact hself

theorem C6_witness :
    (∃ p ∈ get_subgraphs featGraph "grp", (0:ℕ) ∈ p.2.nodes) ∧
    (0 ∈ featGraph.nodes ∧ ∃ v, featGraph.fattrs "grp" 0 = some v ∧ v ≠ FVal.nan) :=
  ⟨((C6_partition featGraph "grp").2 0).mpr
    ⟨by decide, FVal.str "X", by decide, fun hc => FVal.noConfusion hc⟩,
   ⟨by decide, FVal.str "X", by decide, fun hc => FVal.noConfusion hc⟩⟩

theorem avg_keys_nodup (il : ℚ → ℚ) (alg : String) (g : WGraph) (rows : List (ℕ × ℚ))
    (hnd : g.nodes.Nodup)
    (hok : avg_similarity_4_nodes_by_graph il alg g = .ok rows) :
    (rows.map Prod.fst).Nodup := by
  cases hcl : is_clique g with
  | true =>
    have havg : avg_similarity_4_nodes_by_graph il alg g =
        .ok (g.nodes.map (fun n => (n, 1))) := by
      unfold avg_similarity_4_nodes_by_graph
      rw [hcl]
      simp
    rw [havg] at hok
    simp only [Except.ok.injEq] at hok
    subst hok
    have : List.map Prod.fst (List.map (fun n => (n, (1:ℚ))) g.nodes) = g.nodes := by
      rw [List.map_map]
      show List.map id g.nodes = g.nodes
      exact List.map_id g.nodes
    rw [this]
    exact hnd
  | false =>
    cases hrn : run_algorithm il alg g with
    | none =>
      exfalso
      have havg : avg_similarity_4_nodes_by_graph il alg g =
          .error .unsupportedAlgorithm := by
        unfold avg_similarity_4_nodes_by_graph
        rw [hcl]
        simp only [Bool.false_eq_true, if_false]
        rw [hrn]
      rw [havg] at hok
      cases hok
    | some scores =>
      have halg : alg ∈ supported_algorithms := by
        by_contra hna
        rw [(run_algorithm_none_iff il alg g).2 hna] at hrn
        cases hrn
      have hne := scores_endpoints_ne il alg g hnd halg hrn
      exact (avg_char il alg g rows scores hcl hrn hne hok).2

theorem features_loop_gains (il : ℚ → ℚ) (alg : String) (g : WGraph)
    (baseRows : List (ℕ × ℚ)) :
    ∀ (ts : List String) cols skipped,
      features_loop il alg g baseRows ts = .ok (cols, skipped) →
      ∀ fc rows, (fc, rows) ∈ cols →
        ∀ r ∈ rows, r.2.2.2 = gain_of baseRows r.1 r.2.2.1 := by
  intro ts
  induction ts with
  | nil =>
    intro cols skipped hfl fc rows hmem
    simp only [features_loop, Except.ok.injEq, Prod.mk.injEq] at hfl
    rw [← hfl.1] at hmem
    cases hmem
  | cons x rest ih =>
    intro cols skipped hfl fc rows hmem r hr
    rw [show features_loop il alg g baseRows (x :: rest) =
        (match get_similarity_4_feature il alg g x with
        | .error e => .error e
        | .ok xrows =>
          match features_loop il alg g baseRows rest with
          | .error e => .error e
          | .ok st =>
            if xrows.isEmpty then .ok (st.1, x :: st.2)
            else
              .ok ((x, xrows.map (fun r =>
                (r.1, r.2.1, r.2.2, gain_of baseRows r.1 r.2.2))) :: st.1, st.2))
      from rfl] at hfl
    cases hx : get_similarity_4_feature il alg g x with
    | error e =>
      rw [hx] at hfl
      cases hfl
    | ok xrows =>
      rw [hx] at hfl
      cases hrest : features_loop il alg g baseRows rest with
      | error e =>
        rw [hrest] at hfl
        cases hfl
      | ok st =>
        rw [hrest] at hfl
        replace hfl :
            (if xrows.isEmpty then
              (Except.ok (st.1, x :: st.2) :
                Except SimError (List (String × List (ℕ × FVal × ℚ × Option ℚ)) × List String))
            else .ok ((x, xrows.map (fun r =>
              (r.1, r.2.1, r.2.2, gain_of baseRows r.1 r.2.2))) :: st.1, st.2))
            = Except.ok (cols, skipped) := hfl
        by_cases hempty : xrows.isEmpty
        · rw [if_pos hempty] at hfl
          simp only [Except.ok.injEq, Prod.mk.injEq] at hfl
          rw [← hfl.1] at hmem
          exact ih st.1 st.2 (by rw [hrest]) fc rows hmem r hr
        · rw [if_neg hempty] at hfl
          simp only [Except.ok.injEq, Prod.mk.injEq] at hfl
          rw [← hfl.1] at hmem
          rcases List.mem_cons.1 hmem with heq | hmem'
          · cases heq
            rcases List.mem_map.1 hr with ⟨r0, _, rfl⟩
            rfl
          · exact ih st.1 st.2 (by rw [hrest]) fc rows hmem' r hr

theorem is_clique_of_counts {g : WGraph} {e n : ℕ} (he : g.edges.length = e)
    (hn : g.nodes.length = n) (h : (e : ℚ) = (n : ℚ) * ((n : ℚ) - 1) / 2) :
    is_clique g = true := by
  unfold is_clique
  rw [he, hn]
  exact decide_eq_true h

theorem avg_clique_eval (il : ℚ → ℚ) (alg : String) (g : WGraph)
    (hcl : is_clique g = true) :
    avg_similarity_4_nodes_by_graph il alg g = .ok (g.nodes.map (fun n => (n, 1))) := by
  unfold avg_similarity_4_nodes_by_graph
  rw [hcl]
  simp

theorem subgraph_rows_loop_cons (il : ℚ → ℚ) (alg : String) (p : FVal × WGraph)
    (rest : List (FVal × WGraph)) (rows : List (ℕ × ℚ)) (acc : List (ℕ × FVal × ℚ))
    (h1 : avg_similarity_4_nodes_by_graph il alg p.2 = .ok rows)
    (h2 : subgraph_rows_loop il alg rest = .ok acc) :
    subgraph_rows_loop il alg (p :: rest) =
      .ok ((if rows.isEmpty then [] else rows.map (fun r : ℕ × ℚ => (r.1, p.1, r.2))) ++ acc) := by
  have e1 : subgraph_rows_loop il alg (p :: rest) =
      (match avg_similarity_4_nodes_by_graph il alg p.2 with
       | .error e => (.error e : Except SimError (List (ℕ × FVal × ℚ)))
       | .ok rows =>
         match subgraph_rows_loop il alg rest with
         | .error e => .error e
         | .ok acc =>
           .ok ((if rows.isEmpty then [] else rows.map (fun r : ℕ × ℚ => (r.1, p.1, r.2))) ++ acc)) :=
    rfl
  rw [e1, h1]
  show (match subgraph_rows_loop il alg rest with
        | .error e => (.error e : Except SimError (List (ℕ × FVal × ℚ)))
        | .ok acc =>
          .ok ((if rows.isEmpty then [] else rows.map (fun r : ℕ × ℚ => (r.1, p.1, r.2))) ++ acc)) = _
  rw [h2]

theorem features_loop_cons (il : ℚ → ℚ) (alg : String) (g : WGraph)
    (baseRows : List (ℕ × ℚ)) (f : String) (rest : List String)
    (rows : List (ℕ × FVal × ℚ))
    (pr : List (String × List (ℕ × FVal × ℚ × Option ℚ)) × List String)
    (h1 : get_similarity_4_feature il alg g f = .ok rows)
    (h2 : features_loop il alg g baseRows rest = .ok pr) :
    features_loop il alg g baseRows (f :: rest) =
      (if rows.isEmpty then .ok (pr.1, f :: pr.2)
       else .ok ((f, rows.map (fun r =>
        (r.1, r.2.1, r.2.2, gain_of baseRows r.1 r.2.2))) :: pr.1, pr.2)) := by
  have e1 : features_loop il alg g baseRows (f :: rest) =
      (match get_similarity_4_feature il alg g f with
       | .error e =>
        (.error e : Except SimError (List (String × List (ℕ × FVal × ℚ × Option ℚ)) × List String))
       | .ok rows =>
         match features_loop il alg g baseRows rest with
         | .error e => .error e
         | .ok st =>
           if rows.isEmpty then .ok (st.1, f :: st.2)
           else .ok ((f, rows.map (fun r : ℕ × FVal × ℚ =>
             (r.1, r.2.1, r.2.2, gain_of baseRows r.1 r.2.2))) :: st.1, st.2)) := rfl
  rw [e1, h1]
  show (match features_loop il alg g baseRows rest with
        | .error e =>
          (.error e : Except SimError (List (String × List (ℕ × FVal × ℚ × Option ℚ)) × List String))
        | .ok st =>
          if rows.isEmpty then .ok (st.1, f :: st.2)
          else .ok ((f, rows.map (fun r : ℕ × FVal × ℚ =>
            (r.1, r.2.1, r.2.2, gain_of baseRows r.1 r.2.2))) :: st.1, st.2)) = _
  rw [h2]

theorem get_all_eq (il : ℚ → ℚ) (alg : String) (g : WGraph) (ts : List String)
    (baseRows : List (ℕ × ℚ))
    (pr : List (String × List (ℕ × FVal × ℚ × Option ℚ)) × List String)
    (hbase : avg_similarity_4_nodes_by_graph il alg g = .ok baseRows)
    (hfl : features_loop il alg g baseRows ts = .ok pr) :
    get_all_similarities il alg g ts =
      .ok { base := baseRows.map (fun r : ℕ × ℚ => (r.1, r.2, 0))
            cols := pr.1
            retained := ts.filter (fun f => !pr.2.contains f)
            skipped := pr.2 } := by
  unfold get_all_similarities
  rw [hbase]
  show (match features_loop il alg g baseRows ts with
        | .error e => (.error e : Except SimError SimTable)
        | .ok st =>
          .ok { base := baseRows.map (fun r : ℕ × ℚ => (r.1, r.2, 0))
                cols := st.1
                retained := ts.filter (fun f => !st.2.contains f)
                skipped := st.2 }) = _
  rw [hfl]

theorem get_all_base_error (il : ℚ → ℚ) (alg : String) (g : WGraph) (ts : List String)
    (e : SimError)
    (hbase : avg_similarity_4_nodes_by_graph il alg g = .error e) :
    get_all_similarities il alg g ts = .error e := by
  unfold get_all_similarities
  rw [hbase]

theorem get_all_loop_error (il : ℚ → ℚ) (alg : String) (g : WGraph) (ts : List String)
    (baseRows : List (ℕ × ℚ)) (e : SimError)
    (hbase : avg_similarity_4_nodes_by_graph il alg g = .ok baseRows)
    (hfl : features_loop il alg g baseRows ts = .error e) :
    get_all_similarities il alg g ts = .error e := by
  unfold get_all_similarities
  rw [hbase]
  show (match features_loop il alg g baseRows ts with
        | .error e => (.error e : Except SimError SimTable)
        | .ok st =>
          .ok { base := baseRows.map (fun r : ℕ × ℚ => (r.1, r.2, 0))
                cols := st.1
                retained := ts.filter (fun f => !st.2.contains f)
                skipped := st.2 }) = _
  rw [hfl]

/-- C4: in a successfully built similarity table, the gain recorded for a
node within any feature column equals abs(feature_value - baseline_value)
divided by baseline_value whenever the node also appears in the baseline
column (whose values are the whole-graph averages), and the baseline column
itself records gain exactly 0 for every node that has a baseline value. -/
theorem C4_gain_formula (il : ℚ → ℚ) (alg : String) (g : WGraph) (ts : List String)
    (st : SimTable) (hnd : g.nodes.Nodup)
    (hok : get_all_similarities il alg g ts = .ok st) :
    (∀ fc rows, (fc, rows) ∈ st.cols →
      ∀ n lbl v gv, (n, lbl, v, gv) ∈ rows →
        ∀ bv bg, (n, bv, bg) ∈ st.base → gv = some (|v - bv| / bv)) ∧
    (∀ n bv bg, (n, bv, bg) ∈ st.base → bg = 0) := by
  cases hbase : avg_similarity_4_nodes_by_graph il alg g with
  | error e =>
    exfalso
    rw [get_all_base_error il alg g ts e hbase] at hok
    cases hok
  | ok baseRows =>
    cases hfl : features_loop il alg g baseRows ts with
    | error e =>
      exfalso
      rw [get_all_loop_error il alg g ts baseRows e hbase hfl] at hok
      cases hok
    | ok pr =>
      rw [get_all_eq il alg g ts baseRows pr hbase hfl] at hok
      simp only [Except.ok.injEq] at hok
      subst hok
      constructor
      · intro fc rows hcol n lbl v gv hrow bv bg hbase'
        simp only [] at hbase'
        rcases List.mem_map.1 hbase' with ⟨r0, hr0, heq⟩
        simp only [Prod.mk.injEq] at heq
        have hmem : (n, bv) ∈ baseRows := by
          have : r0 = (n, bv) := Prod.ext heq.1 heq.2.1
          rw [← this]
          exact hr0
        have hlk : baseRows.lookup n = some bv :=
          lookup_of_mem_nodup baseRows (avg_keys_nodup il alg g baseRows hnd hbase) hmem
        have hg := features_loop_gains il alg g baseRows ts pr.1 pr.2 (by rw [hfl])
          fc rows hcol (n, lbl, v, gv) hrow
        have hg' : gv = gain_of baseRows n v := hg
        rw [hg']
        unfold gain_of
        rw [hlk]
        rfl
      · intro n bv bg hbase'
        simp only [] at hbase'
        rcases List.mem_map.1 hbase' with ⟨r0, _, heq⟩
        simp only [Prod.mk.injEq] at heq
        exact heq.2.2.symm

/-- The 2-clique 0 - 1 with unit weight; feature "grp" assigns "X" to both
nodes, every other feature is absent. -/
def pairGraph : WGraph :=
  { nodes := [0, 1]
    edges := [(0, 1, 1)]
    wlogAttr := fun _ => none
    fattrs := fun f n => if f = "grp" ∧ n ≤ 1 then some (.str "X") else none }

/-- The feature-value subgraph of `pairGraph` for "grp" = "X". -/
def pairSub : WGraph := subgraphOn pairGraph (feature_nodes pairGraph "grp" (FVal.str "X"))

/-- The similarity table `get_all_similarities` builds for `pairGraph` with
target feature list ["grp"] under the jaccard algorithm. -/
def pairTable : SimTable :=
  { base := [(0, 1, 0), (1, 1, 0)]
    cols := [("grp", [(0, FVal.str "X", 1, some 0), (1, FVal.str "X", 1, some 0)])]
    retained := ["grp"]
    skipped := [] }

theorem pairGraph_base :
    avg_similarity_4_nodes_by_graph (fun _ => 1) "jaccard" pairGraph =
      .ok [(0, 1), (1, 1)] :=
  (avg_clique_eval (fun _ => 1) "jaccard" pairGraph
    (is_clique_of_counts (show pairGraph.edges.length = 1 from rfl)
      (show pairGraph.nodes.length = 2 from rfl) (by norm_num))).trans rfl

theorem pairGraph_sub_avg :
    avg_similarity_4_nodes_by_graph (fun _ => 1) "jaccard" pairSub =
      .ok [(0, 1), (1, 1)] :=
  (avg_clique_eval (fun _ => 1) "jaccard" pairSub
    (is_clique_of_counts (show pairSub.edges.length = 1 from rfl)
      (show pairSub.nodes.length = 2 from rfl) (by norm_num))).trans rfl

theorem pairGraph_sim :
    get_similarity_4_feature (fun _ => 1) "jaccard" pairGraph "grp" =
      .ok [(0, FVal.str "X", 1), (1, FVal.str "X", 1)] := by
  unfold get_similarity_4_feature
  rw [show get_subgraphs pairGraph "grp" = [(FVal.str "X", pairSub)] from rfl]
  rw [subgraph_rows_loop_cons (fun _ => 1) "jaccard" (FVal.str "X", pairSub) []
    [(0, 1), (1, 1)] [] pairGraph_sub_avg rfl]
  rfl

theorem pairGraph_table :
    get_all_similarities (fun _ => 1) "jaccard" pairGraph ["grp"] = .ok pairTable := by
  have hg0 : gain_of [(0, 1), (1, 1)] 0 1 = some 0 := by
    unfold gain_of
    rw [show List.lookup 0 [((0:ℕ), (1:ℚ)), (1, 1)] = some 1 from rfl]
    norm_num
  have hg1 : gain_of [(0, 1), (1, 1)] 1 1 = some 0 := by
    unfold gain_of
    rw [show List.lookup 1 [((0:ℕ), (1:ℚ)), (1, 1)] = some 1 from rfl]
    norm_num
  have hfl : features_loop (fun _ => 1) "jaccard" pairGraph [(0, 1), (1, 1)] ["grp"] =
      .ok ([("grp", [(0, FVal.str "X", 1, some 0), (1, FVal.str "X", 1, some 0)])], []) := by
    rw [features_loop_cons (fun _ => 1) "jaccard" pairGraph [(0, 1), (1, 1)] "grp" []
      [(0, FVal.str "X", 1), (1, FVal.str "X", 1)] ([], []) pairGraph_sim rfl]
    rw [if_neg (by decide)]
    show Except.ok (("grp",
        [((0:ℕ), FVal.str "X", (1:ℚ), gain_of [(0, 1), (1, 1)] 0 1),
         (1, FVal.str "X", 1, gain_of [(0, 1), (1, 1)] 1 1)]) ::
      ([] : List (String × List (ℕ × FVal × ℚ × Option ℚ))), ([] : List String)) = _
    rw [hg0, hg1]
  exact (get_all_eq (fun _ => 1) "jaccard" pairGraph ["grp"] [(0, 1), (1, 1)]
    ([("grp", [(0, FVal.str "X", 1, some 0), (1, FVal.str "X", 1, some 0)])], [])
    pairGraph_base hfl).trans rfl

theorem C4_witness :
    get_all_similarities (fun _ => 1) "jaccard" pairGraph ["grp"] = .ok pairTable ∧
    some (0:ℚ) = some (|(1:ℚ) - 1| / 1) ∧ (0:ℚ) = 0 :=
  ⟨pairGraph_table,
   (C4_gain_formula (fun _ => 1) "jaccard" pairGraph ["grp"] pairTable (by decide)
      pairGraph_table).1 "grp" [(0, FVal.str "X", 1, some 0), (1, FVal.str "X", 1, some 0)]
      (List.mem_singleton.2 rfl) 0 (FVal.str "X") 1 (some 0)
      (List.mem_cons_self _ _) 1 0 (List.mem_cons_self _ _),
   (C4_gain_formula (fun _ => 1) "jaccard" pairGraph ["grp"] pairTable (by decide)
      pairGraph_table).2 0 1 0 (List.mem_cons_self _ _)⟩

theorem features_loop_cons_err1 (il : ℚ → ℚ) (alg : String) (g : WGraph)
    (baseRows : List (ℕ × ℚ)) (f : String) (rest : List String) (e : SimError)
    (h1 : get_similarity_4_feature il alg g f = .error e) :
    features_loop il alg g baseRows (f :: rest) = .error e := by
  have e1 : features_loop il alg g baseRows (f :: rest) =
      (match get_similarity_4_feature il alg g f with
       | .error e =>
        (.error e : Except SimError (List (String × List (ℕ × FVal × ℚ × Option ℚ)) × List String))
       | .ok rows =>
         match features_loop il alg g baseRows rest with
         | .error e => .error e
         | .ok st =>
           if rows.isEmpty then .ok (st.1, f :: st.2)
           else .ok ((f, rows.map (fun r : ℕ × FVal × ℚ =>
             (r.1, r.2.1, r.2.2, gain_of baseRows r.1 r.2.2))) :: st.1, st.2)) := rfl
  rw [e1, h1]

theorem features_loop_cons_err2 (il : ℚ → ℚ) (alg : String) (g : WGraph)
    (baseRows : List (ℕ × ℚ)) (f : String) (rest : List String)
    (rows : List (ℕ × FVal × ℚ)) (e : SimError)
    (h1 : get_similarity_4_feature il alg g f = .ok rows)
    (h2 : features_loop il alg g baseRows rest = .error e) :
    features_loop il alg g baseRows (f :: rest) = .error e := by
  have e1 : features_loop il alg g baseRows (f :: rest) =
      (match get_similarity_4_feature il alg g f with
       | .error e =>
        (.error e : Except SimError (List (String × List (ℕ × FVal × ℚ × Option ℚ)) × List String))
       | .ok rows =>
         match features_loop il alg g baseRows rest with
         | .error e => .error e
         | .ok st =>
           if rows.isEmpty then .ok (st.1, f :: st.2)
           else .ok ((f, rows.map (fun r : ℕ × FVal × ℚ =>
             (r.1, r.2.1, r.2.2, gain_of baseRows r.1 r.2.2))) :: st.1, st.2)) := rfl
  rw [e1, h1]
  show (match features_loop il alg g baseRows rest with
        | .error e =>
          (.error e : Except SimError (List (String × List (ℕ × FVal × ℚ × Option ℚ)) × List String))
        | .ok st =>
          if rows.isEmpty then .ok (st.1, f :: st.2)
          else .ok ((f, rows.map (fun r : ℕ × FVal × ℚ =>
            (r.1, r.2.1, r.2.2, gain_of baseRows r.1 r.2.2))) :: st.1, st.2)) = _
  rw [h2]

theorem features_loop_skip (il : ℚ → ℚ) (alg : String) (g : WGraph)
    (baseRows : List (ℕ × ℚ)) (f : String)
    (hsim : get_similarity_4_feature il alg g f = .ok []) :
    ∀ (ts : List String) cols skipped,
      features_loop il alg g baseRows ts = .ok (cols, skipped) →
      (∀ rows, (f, rows) ∉ cols) ∧ (f ∈ ts → f ∈ skipped) := by
  intro ts
  induction ts with
  | nil =>
    intro cols skipped hfl
    simp only [features_loop, Except.ok.injEq, Prod.mk.injEq] at hfl
    constructor
    · intro rows hmem
      rw [← hfl.1] at hmem
      cases hmem
    · intro hmem
      cases hmem
  | cons x rest ih =>
    intro cols skipped hfl
    cases hx : get_similarity_4_feature il alg g x with
    | error e =>
      exfalso
      rw [features_loop_cons_err1 il alg g baseRows x rest e hx] at hfl
      cases hfl
    | ok xrows =>
      cases hrest : features_loop il alg g baseRows rest with
      | error e =>
        exfalso
        rw [features_loop_cons_err2 il alg g baseRows x rest xrows e hx hrest] at hfl
        cases hfl
      | ok pr =>
        rw [features_loop_cons il alg g baseRows x rest xrows pr hx hrest] at hfl
        rcases ih pr.1 pr.2 (by rw [hrest]) with ⟨ihcols, ihskip⟩
        by_cases hempty : xrows.isEmpty
        · rw [if_pos hempty] at hfl
          simp only [Except.ok.injEq, Prod.mk.injEq] at hfl
          constructor
          · intro rows hmem
            rw [← hfl.1] at hmem
            exact ihcols rows hmem
          · intro hmemts
            rw [← hfl.2]
            by_cases hxf : x = f
            · rw [hxf]
              exact List.mem_cons_self _ _
            · rcases List.mem_cons.1 hmemts with h | h
              · exact absurd h.symm hxf
              · exact List.mem_cons_of_mem _ (ihskip h)
        · rw [if_neg hempty] at hfl
          simp only [Except.ok.injEq, Prod.mk.injEq] at hfl
          have hxf : x ≠ f := by
            intro hc
            subst hc
            rw [hx] at hsim
            injection hsim with hrows
            rw [hrows] at hempty
            exact hempty rfl
          constructor
          · intro rows hmem
            rw [← hfl.1] at hmem
            rcases List.mem_cons.1 hmem with heq2 | hmem'
            · have : f = x := congrArg Prod.fst heq2
              exact hxf this.symm
            · exact ihcols rows hmem'
          · intro hmemts
            rw [← hfl.2]
            rcases List.mem_cons.1 hmemts with h | h
            · exact absurd h.symm hxf
            · exact ihskip h

theorem features_loop_filter (il : ℚ → ℚ) (alg : String) (g : WGraph)
    (baseRows : List (ℕ × ℚ)) (f : String)
    (hsim : get_similarity_4_feature il alg g f = .ok []) :
    ∀ ts : List String,
      (features_loop il alg g baseRows ts).map Prod.fst =
        (features_loop il alg g baseRows (ts.filter (fun x => x != f))).map Prod.fst := by
  intro ts
  induction ts with
  | nil => rfl
  | cons x rest ih =>
    by_cases hxf : x = f
    · subst hxf
      have hfil : (x :: rest).filter (fun y => y != x) = rest.filter (fun y => y != x) := by
        rw [List.filter_cons, if_neg (by simp)]
      rw [hfil]
      cases hrest : features_loop il alg g baseRows rest with
      | error e =>
        rw [features_loop_cons_err2 il alg g baseRows x rest [] e hsim hrest]
        rw [← ih, hrest]
      | ok pr =>
        rw [features_loop_cons il alg g baseRows x rest [] pr hsim hrest]
        rw [if_pos (show ([] : List (ℕ × FVal × ℚ)).isEmpty = true from rfl)]
        rw [← ih, hrest]
        rfl
    · have hfil : (x :: rest).filter (fun y => y != f) =
          x :: rest.filter (fun y => y != f) := by
        rw [List.filter_cons, if_pos (by simp [hxf])]
      rw [hfil]
      cases hx : get_similarity_4_feature il alg g x with
      | error e =>
        rw [features_loop_cons_err1 il alg g baseRows x rest e hx,
            features_loop_cons_err1 il alg g baseRows x (rest.filter (fun y => y != f)) e hx]
      | ok xrows =>
        cases hrest : features_loop il alg g baseRows rest with
        | error e =>
          have hfr : features_loop il alg g baseRows (rest.filter (fun y => y != f)) =
              .error e := by
            have hmap := ih
            rw [hrest] at hmap
            cases hfr2 : features_loop il alg g baseRows (rest.filter (fun y => y != f)) with
            | error e2 =>
              rw [hfr2] at hmap
              have h3 : (Except.error e :
                  Except SimError (List (String × List (ℕ × FVal × ℚ × Option ℚ)))) =
                  .error e2 := hmap
              injection h3 with he
              rw [he]
            | ok pr2 =>
              rw [hfr2] at hmap
              exact absurd hmap (by intro hc; cases hc)
          rw [features_loop_cons_err2 il alg g baseRows x rest xrows e hx hrest,
              features_loop_cons_err2 il alg g baseRows x (rest.filter (fun y => y != f))
                xrows e hx hfr]
        | ok pr =>
          have hfr : ∃ pr2, features_loop il alg g baseRows (rest.filter (fun y => y != f)) =
              .ok pr2 ∧ pr2.1 = pr.1 := by
            have hmap := ih
            rw [hrest] at hmap
            cases hfr2 : features_loop il alg g baseRows (rest.filter (fun y => y != f)) with
            | error e2 =>
              rw [hfr2] at hmap
              exact absurd hmap (by intro hc; cases hc)
            | ok pr2 =>
              rw [hfr2] at hmap
              have h3 : (Except.ok pr.1 :
                  Except SimError (List (String × List (ℕ × FVal × ℚ × Option ℚ)))) =
                  .ok pr2.1 := hmap
              injection h3 with he
              exact ⟨pr2, rfl, he.symm⟩
          rcases hfr with ⟨pr2, hfr2, hpr⟩
          rw [features_loop_cons il alg g baseRows x rest xrows pr hx hrest,
              features_loop_cons il alg g baseRows x (rest.filter (fun y => y != f))
                xrows pr2 hx hfr2]
          by_cases hempty : xrows.isEmpty
          · rw [if_pos hempty, if_pos hempty]
            show Except.ok pr.1 = Except.ok pr2.1
            rw [hpr]
          · rw [if_neg hempty, if_neg hempty]
            show Except.ok ((x, xrows.map (fun r : ℕ × FVal × ℚ =>
                (r.1, r.2.1, r.2.2, gain_of baseRows r.1 r.2.2))) :: pr.1) =
              Except.ok ((x, xrows.map (fun r : ℕ × FVal × ℚ =>
                (r.1, r.2.1, r.2.2, gain_of baseRows r.1 r.2.2))) :: pr2.1)
            rw [hpr]

theorem node_attributes_absent {g : WGraph} {f : String}
    (habs : ∀ n, g.fattrs f n = none) : node_attributes g f = [] := by
  unfold node_attributes
  rw [List.filterMap_eq_nil]
  intro n _
  rw [habs n]
  rfl

theorem get_subgraphs_absent {g : WGraph} {f : String}
    (habs : ∀ n, g.fattrs f n = none) : get_subgraphs g f = [] := by
  unfold get_subgraphs
  rw [node_attributes_absent habs]
  rfl

theorem get_sim_absent (il : ℚ → ℚ) (alg : String) {g : WGraph} {f : String}
    (habs : ∀ n, g.fattrs f n = none) :
    get_similarity_4_feature il alg g f = .ok [] := by
  unfold get_similarity_4_feature
  rw [get_subgraphs_absent habs]
  rfl

theorem get_all_cols_eq_loop (il : ℚ → ℚ) (alg : String) (g : WGraph) (ts : List String)
    (baseRows : List (ℕ × ℚ))
    (hbase : avg_similarity_4_nodes_by_graph il alg g = .ok baseRows) :
    (get_all_similarities il alg g ts).map SimTable.cols =
      (features_loop il alg g baseRows ts).map Prod.fst := by
  cases hfl : features_loop il alg g baseRows ts with
  | error e =>
    rw [get_all_loop_error il alg g ts baseRows e hbase hfl]
    rfl
  | ok pr =>
    rw [get_all_eq il alg g ts baseRows pr hbase hfl]
    rfl

/-- C7: for a feature absent from every node attribute, get_subgraphs
returns the empty mapping without raising, get_similarity_4_feature yields
an empty frame, and the aggregator builds no column for that feature,
removes it from the retained target-feature list, records it as skipped,
and builds exactly the same columns it would build with the feature removed
from the target list — processing of the remaining features continues. -/
theorem C7_missing_feature (il : ℚ → ℚ) (alg : String) (g : WGraph) (ts : List String)
    (f : String) (habs : ∀ n, g.fattrs f n = none) :
    get_subgraphs g f = [] ∧
    get_similarity_4_feature il alg g f = .ok [] ∧
    (∀ st, get_all_similarities il alg g ts = .ok st →
      (∀ rows, (f, rows) ∉ st.cols) ∧ f ∉ st.retained ∧ (f ∈ ts → f ∈ st.skipped)) ∧
    (get_all_similarities il alg g ts).map SimTable.cols =
      (get_all_similarities il alg g (ts.filter (fun x => x != f))).map SimTable.cols := by
  have hsim := get_sim_absent il alg habs
  refine ⟨get_subgraphs_absent habs, hsim, ?_, ?_⟩
  · intro st hok
    cases hbase : avg_similarity_4_nodes_by_graph il alg g with
    | error e =>
      exfalso
      rw [get_all_base_error il alg g ts e hbase] at hok
      cases hok
    | ok baseRows =>
      cases hfl : features_loop il alg g baseRows ts with
      | error e =>
        exfalso
        rw [get_all_loop_error il alg g ts baseRows e hbase hfl] at hok
        cases hok
      | ok pr =>
        rw [get_all_eq il alg g ts baseRows pr hbase hfl] at hok
        simp only [Except.ok.injEq] at hok
        subst hok
        rcases features_loop_skip il alg g baseRows f hsim ts pr.1 pr.2 (by rw [hfl])
          with ⟨hc, hs⟩
        refine ⟨hc, ?_, hs⟩
        intro hret
        rcases List.mem_filter.1 hret with ⟨hints, hcond⟩
        have hmem2 : f ∈ pr.2 := hs hints
        simp [hmem2] at hcond
  · cases hbase : avg_similarity_4_nodes_by_graph il alg g with
    | error e =>
      rw [get_all_base_error il alg g ts e hbase,
          get_all_base_error il alg g (ts.filter (fun x => x != f)) e hbase]
    | ok baseRows =>
      rw [get_all_cols_eq_loop il alg g ts baseRows hbase,
          get_all_cols_eq_loop il alg g (ts.filter (fun x => x != f)) baseRows hbase]
      exact features_loop_filter il alg g baseRows f hsim ts

/-- The similarity table for `pairGraph` with target list ["grp", "ghost"],
where "ghost" is absent from every node. -/
def ghostTable : SimTable :=
  { base := [(0, 1, 0), (1, 1, 0)]
    cols := [("grp", [(0, FVal.str "X", 1, some 0), (1, FVal.str "X", 1, some 0)])]
    retained := ["grp"]
    skipped := ["ghost"] }

theorem pairGraph_ghost_absent : ∀ n, pairGraph.fattrs "ghost" n = none := by
  intro n
  show (if "ghost" = "grp" ∧ n ≤ 1 then some (FVal.str "X") else none) = none
  rw [if_neg ?_]
  rintro ⟨h, _⟩
  exact absurd h (by decide)

theorem pairGraph_ghost_table :
    get_all_similarities (fun _ => 1) "jaccard" pairGraph ["grp", "ghost"] =
      .ok ghostTable := by
  have hsimg : get_similarity_4_feature (fun _ => 1) "jaccard" pairGraph "ghost" =
      .ok [] := get_sim_absent (fun _ => 1) "jaccard" pairGraph_ghost_absent
  have hfl1 : features_loop (fun _ => 1) "jaccard" pairGraph [(0, 1), (1, 1)] ["ghost"] =
      .ok ([], ["ghost"]) := by
    rw [features_loop_cons (fun _ => 1) "jaccard" pairGraph [(0, 1), (1, 1)] "ghost" []
      [] ([], []) hsimg rfl]
    rw [if_pos (show ([] : List (ℕ × FVal × ℚ)).isEmpty = true from rfl)]
  have hg0 : gain_of [(0, 1), (1, 1)] 0 1 = some 0 := by
    unfold gain_of
    rw [show List.lookup 0 [((0:ℕ), (1:ℚ)), (1, 1)] = some 1 from rfl]
    norm_num
  have hg1 : gain_of [(0, 1), (1, 1)] 1 1 = some 0 := by
    unfold gain_of
    rw [show List.lookup 1 [((0:ℕ), (1:ℚ)), (1, 1)] = some 1 from rfl]
    norm_num
  have hfl : features_loop (fun _ => 1) "jaccard" pairGraph [(0, 1), (1, 1)]
      ["grp", "ghost"] =
      .ok ([("grp", [(0, FVal.str "X", 1, some 0), (1, FVal.str "X", 1, some 0)])],
        ["ghost"]) := by
    rw [features_loop_cons (fun _ => 1) "jaccard" pairGraph [(0, 1), (1, 1)] "grp" ["ghost"]
      [(0, FVal.str "X", 1), (1, FVal.str "X", 1)] ([], ["ghost"]) pairGraph_sim hfl1]
    rw [if_neg (by decide)]
    show Except.ok (("grp",
        [((0:ℕ), FVal.str "X", (1:ℚ), gain_of [(0, 1), (1, 1)] 0 1),
         (1, FVal.str "X", 1, gain_of [(0, 1), (1, 1)] 1 1)]) ::
      ([] : List (String × List (ℕ × FVal × ℚ × Option ℚ))), ["ghost"]) = _
    rw [hg0, hg1]
  exact (get_all_eq (fun _ => 1) "jaccard" pairGraph ["grp", "ghost"] [(0, 1), (1, 1)]
    ([("grp", [(0, FVal.str "X", 1, some 0), (1, FVal.str "X", 1, some 0)])], ["ghost"])
    pairGraph_base hfl).trans rfl

theorem C7_witness :
    get_subgraphs pairGraph "ghost" = [] ∧
    get_similarity_4_feature (fun _ => 1) "jaccard" pairGraph "ghost" = .ok [] ∧
    get_all_similarities (fun _ => 1) "jaccard" pairGraph ["grp", "ghost"] =
      .ok ghostTable ∧
    (("ghost", [(0, FVal.str "X", 1, some 0), (1, FVal.str "X", 1, some 0)]) ∉
      ghostTable.cols) ∧
    "ghost" ∉ ghostTable.retained ∧ "ghost" ∈ ghostTable.skipped := by
  have hthm := C7_missing_feature (fun _ => 1) "jaccard" pairGraph ["grp", "ghost"]
    "ghost" pairGraph_ghost_absent
  have h3 := hthm.2.2.1 ghostTable pairGraph_ghost_table
  exact ⟨hthm.1, hthm.2.1, pairGraph_ghost_table,
    h3.1 [(0, FVal.str "X", 1, some 0), (1, FVal.str "X", 1, some 0)],
    h3.2.1, h3.2.2 (by decide)⟩
